import Mathlib

/-!
Verification development for the MIDITok tokenization library
(files src/miditok/tokenizations/{midi_like,structured,mmm}.py).

Tokens are strings of the form "Type_Value".  We embed them as a type tag
together with a structured value: integer-valued tokens (pitches, velocities,
programs, pitch bends) carry an integer, duration-valued tokens (TimeShift,
Rest, Duration) carry a "beats.frames.res" triple, and anything else carries a
raw string.  Python operations that can raise (dict KeyError, int() ValueError,
list IndexError) are embedded with Option: a result of none models an
uncaught exception.
-/

namespace MidiTok

/-- Structured form of the value part of a "Type_Value" token string. -/
inductive TokVal where
  | num (n : Int)
  | dur (b f r : Nat)
  | raw (s : String)
deriving DecidableEq, Repr

/-- One token: its type tag (text before the underscore) and its value. -/
structure Tok where
  ttype : String
  tval : TokVal
deriving DecidableEq, Repr

/-- Result of Python int() applied to the value part of a token string:
integer literals parse, duration triples and other strings raise ValueError. -/
def TokVal.intVal : TokVal → Option Int
  | .num n => some n
  | _ => none

/-- Modelled from the spec: duration token values are
(beats, frames, res) triples, the resolution being in frames per beat, and
the base-class helper converting such a value to ticks
(absent from src/) computes beats * tpb + frames * (tpb / res). A value that
is not a duration triple makes the helper raise, embedded as none. -/
def tokenDurationToTicks : TokVal → Nat → Option Nat
  | .dur b f r, tpb => some (b * tpb + f * (tpb / r))
  | _, _ => none

/-- First-match association-list lookup; none models a Python dict KeyError. -/
def lookupA {α β : Type} [DecidableEq α] : List (α × β) → α → Option β
  | [], _ => none
  | (k, v) :: rest, key => if k = key then some v else lookupA rest key

/-- Python dict assignment d[k] = v: replaces the value at the first
occurrence of the key, else appends the binding (insertion order kept). -/
def setA {α β : Type} [DecidableEq α] : List (α × β) → α → β → List (α × β)
  | [], key, val => [(key, val)]
  | (k, v) :: rest, key, val =>
      if k = key then (key, val) :: rest else (k, v) :: setA rest key val

/-- Python del d[k]: removes the first binding of the key. -/
def eraseA {α β : Type} [DecidableEq α] : List (α × β) → α → List (α × β)
  | [], _ => []
  | (k, v) :: rest, key => if k = key then rest else (k, v) :: eraseA rest key

/-- Whether an association list has a binding for a key (Python k in d). -/
def memA {α β : Type} [DecidableEq α] (l : List (α × β)) (key : α) : Bool :=
  (lookupA l key).isSome

/-! ## MIDILike: configuration and decode state (midi_like.py) -/

/-- The configuration fields of the tokenizer that midi_like.py reads. -/
structure MLConfig where
  one_token_stream : Bool
  use_programs : Bool
  program_changes : Bool
  use_pitch_intervals : Bool
  use_chords : Bool
  use_tempos : Bool
  use_time_signatures : Bool
  use_sustain_pedals : Bool
  sustain_pedal_duration : Bool
  use_pitch_bends : Bool
  use_rests : Bool
  remove_duplicated_notes : Bool
  programs : List Int
  pitch_min : Int
  pitch_max : Int
  max_duration : Option TokVal
  time_division : Nat
deriving DecidableEq, Repr

/-- range(pitch_range[0], pitch_range[1] + 1). -/
def pitchRangeList (cfg : MLConfig) : List Int :=
  (List.range (cfg.pitch_max + 1 - cfg.pitch_min).toNat).map
    (fun i => cfg.pitch_min + (i : Int))

/-- max_duration converted to ticks (lines 150-152 of midi_like.py). -/
def mlMaxDurTicks (cfg : MLConfig) : Option Nat :=
  match cfg.max_duration with
  | none => none
  | some v => tokenDurationToTicks v cfg.time_division

/-- A decoded note: onset tick, duration in ticks, pitch, velocity.  Times are
integers because queued onsets surviving a track switch can exceed the reset
tick cursor, making current_tick - onset negative in Python as well. -/
structure MNote where
  start : Int
  duration : Int
  pitch : Int
  velocity : Int
deriving DecidableEq, Repr

/-- A decoded track.  The display name built from MIDI_INSTRUMENTS (a constant
table outside src/) is presentation-only data and is not carried. -/
structure MTrack where
  program : Int
  is_drum : Bool
  notes : List MNote
  pedals : List (Int × Int)
  pitch_bends : List (Int × Int)
deriving DecidableEq, Repr

/-- Track freshly constructed for a program, as check_inst and the
per-sequence initialisation build it (program 0 and is_drum for -1). -/
def newTrack (prog : Int) : MTrack :=
  { program := if prog = -1 then 0 else prog,
    is_drum := prog = -1,
    notes := [],
    pedals := [],
    pitch_bends := [] }

/-- The per-program, per-pitch FIFO queues of (onset tick, velocity). -/
abbrev ANotes : Type := List (Int × List (Int × List (Int × Int)))

/-- Fresh pitch-to-queue dictionary covering the configured pitch range. -/
def freshPitchDict (cfg : MLConfig) : List (Int × List (Int × Int)) :=
  (pitchRangeList cfg).map (fun p => (p, ([] : List (Int × Int))))

/-- Initial active_notes dictionary (lines 157-165 of midi_like.py). -/
def initANotes (cfg : MLConfig) : ANotes :=
  cfg.programs.map (fun g => (g, freshPitchDict cfg))

/-- active_notes[g][p] read; none models a KeyError. -/
def anGet (an : ANotes) (g p : Int) : Option (List (Int × Int)) :=
  match lookupA an g with
  | none => none
  | some d => lookupA d p

/-- In-place update of the queue active_notes[g][p]; none models KeyError. -/
def anUpdate (an : ANotes) (g p : Int)
    (f : List (Int × Int) → List (Int × Int)) : Option ANotes :=
  match lookupA an g with
  | none => none
  | some d =>
    match lookupA d p with
    | none => none
    | some q => some (setA an g (setA d p (f q)))

/-- check_inst (lines 167-173): create the track for a program if absent. -/
def checkInst (tracks : List (Int × MTrack)) (g : Int) : List (Int × MTrack) :=
  match lookupA tracks g with
  | some _ => tracks
  | none => tracks ++ [(g, newTrack g)]

/-- tracks[g].notes.append(n); the program key is present at every call site
(check_inst runs first), the fallback branch is dead. -/
def appendNoteT (tracks : List (Int × MTrack)) (g : Int) (n : MNote) :
    List (Int × MTrack) :=
  match lookupA tracks g with
  | some t => setA tracks g { t with notes := t.notes ++ [n] }
  | none => tracks

/-- tracks[g].pedals.append(p), same conventions as appendNoteT. -/
def appendPedalT (tracks : List (Int × MTrack)) (g : Int) (p : Int × Int) :
    List (Int × MTrack) :=
  match lookupA tracks g with
  | some t => setA tracks g { t with pedals := t.pedals ++ [p] }
  | none => tracks

/-- tracks[g].pitch_bends.append(b), same conventions as appendNoteT. -/
def appendBendT (tracks : List (Int × MTrack)) (g : Int) (b : Int × Int) :
    List (Int × MTrack) :=
  match lookupA tracks g with
  | some t => setA tracks g { t with pitch_bends := t.pitch_bends ++ [b] }
  | none => tracks

/-- Decode state of MIDILike._tokens_to_midi.  tracks, tempos, timesigs and
active_notes persist across sequences; the rest is reset per sequence.
cur_instr embeds current_instrument and is only meaningful when
one_token_stream is false. -/
structure MLState where
  tracks : List (Int × MTrack)
  tempos : List (Int × TokVal)
  timesigs : List (Int × TokVal)
  active_notes : ANotes
  current_tick : Int
  current_program : Int
  ppo : List (Int × Int)
  ppc : List (Int × Int)
  active_pedals : List (Int × Int)
  cur_instr : MTrack
deriving DecidableEq, Repr

/-- Where a newly decoded note lands: the per-program track dictionary in
one-token-stream mode, the current instrument otherwise. -/
def mlNotesDest (cfg : MLConfig) (st : MLState) (g : Int) : List MNote :=
  if cfg.one_token_stream then
    match lookupA st.tracks g with
    | some t => t.notes
    | none => []
  else st.cur_instr.notes

/-- Append a decoded note (lines 263-268 of midi_like.py). -/
def mlAddNote (cfg : MLConfig) (st : MLState) (g : Int) (n : MNote) : MLState :=
  if cfg.one_token_stream then
    { st with tracks := appendNoteT (checkInst st.tracks g) g n }
  else
    { st with cur_instr := { st.cur_instr with notes := st.cur_instr.notes ++ [n] } }

/-- Append a decoded pedal (lines 287-292 and 300-314 of midi_like.py). -/
def mlAddPedal (cfg : MLConfig) (st : MLState) (g : Int) (p : Int × Int) :
    MLState :=
  if cfg.one_token_stream then
    { st with tracks := appendPedalT (checkInst st.tracks g) g p }
  else
    { st with cur_instr :=
        { st.cur_instr with pedals := st.cur_instr.pedals ++ [p] } }

/-- Append a decoded pitch bend (lines 316-322 of midi_like.py). -/
def mlAddBend (cfg : MLConfig) (st : MLState) (g : Int) (b : Int × Int) :
    MLState :=
  if cfg.one_token_stream then
    { st with tracks := appendBendT (checkInst st.tracks g) g b }
  else
    { st with cur_instr :=
        { st.cur_instr with pitch_bends := st.cur_instr.pitch_bends ++ [b] } }

/-- Clamp current_tick - onset to max_duration (lines 260-262). -/
def clampDur (maxDur : Option Nat) (d : Int) : Int :=
  match maxDur with
  | none => d
  | some m => if d > (m : Int) then (m : Int) else d

/-- Pitch computation and previous-pitch bookkeeping for the note-on and
note-off class of tokens (lines 233-246 of midi_like.py); the updates happen
even when the rest of the branch does nothing. -/
def mlPitchOf (st : MLState) (tok : Tok) : Option (Int × MLState) :=
  if tok.ttype = "PitchIntervalTime" then
    match TokVal.intVal tok.tval, lookupA st.ppo st.current_program with
    | some dv, some prev =>
        let p := prev + dv
        some (p, { st with ppo := setA st.ppo st.current_program p,
                           ppc := setA st.ppc st.current_program p })
    | _, _ => none
  else if tok.ttype = "PitchIntervalChord" then
    match TokVal.intVal tok.tval, lookupA st.ppc st.current_program with
    | some dv, some prev =>
        let p := prev + dv
        some (p, { st with ppc := setA st.ppc st.current_program p })
    | _, _ => none
  else
    match TokVal.intVal tok.tval with
    | none => none
    | some p =>
      if tok.ttype = "NoteOn" then
        some (p, { st with ppo := setA st.ppo st.current_program p,
                           ppc := setA st.ppc st.current_program p })
      else some (p, st)

/-- One iteration of the decode loop of MIDILike._tokens_to_midi
(lines 221-322).  next? is the token at index ti + 1 when it exists,
first_seq tells whether si == 0. -/
def mlStep (cfg : MLConfig) (maxDur : Option Nat) (first_seq : Bool)
    (st : MLState) (tok : Tok) (next? : Option Tok) : Option MLState :=
  if tok.ttype = "TimeShift" ∨ tok.ttype = "Rest" then
    match tokenDurationToTicks tok.tval cfg.time_division with
    | none => none
    | some t => some { st with current_tick := st.current_tick + (t : Int) }
  else if tok.ttype = "NoteOn" ∨ tok.ttype = "NoteOff" ∨
      tok.ttype = "PitchIntervalTime" ∨ tok.ttype = "PitchIntervalChord" then
    match mlPitchOf st tok with
    | none => none
    | some (pitch, st1) =>
      if tok.ttype ≠ "NoteOff" then
        -- note-on class: push (current_tick, velocity of the next token)
        match next? with
        | none => some st1
        | some nt =>
          match TokVal.intVal nt.tval with
          | none => none
          | some vel =>
            match anUpdate st1.active_notes st1.current_program pitch
                (fun q => q ++ [(st1.current_tick, vel)]) with
            | none => none
            | some an => some { st1 with active_notes := an }
      else
        -- NoteOff: pop the oldest queued onset and emit the note
        match anGet st1.active_notes st1.current_program pitch with
        | none => none
        | some [] => some st1
        | some ((onset, vel) :: _qrest) =>
          match anUpdate st1.active_notes st1.current_program pitch
              (fun q => q.tail) with
          | none => none
          | some an =>
            let d := clampDur maxDur (st1.current_tick - onset)
            some (mlAddNote cfg { st1 with active_notes := an }
              st1.current_program
              { start := onset, duration := d, pitch := pitch, velocity := vel })
  else if tok.ttype = "Program" then
    match TokVal.intVal tok.tval with
    | none => none
    | some v => some { st with current_program := v }
  else if tok.ttype = "Tempo" then
    if first_seq then
      some { st with tempos := st.tempos ++ [(st.current_tick, tok.tval)] }
    else some st
  else if tok.ttype = "TimeSig" then
    -- _parse_token_time_signature lives outside src/; the raw value is kept
    if first_seq then
      some { st with timesigs := st.timesigs ++ [(st.current_tick, tok.tval)] }
    else some st
  else if tok.ttype = "Pedal" then
    match (if cfg.use_programs then TokVal.intVal tok.tval
           else some st.current_program) with
    | none => none
    | some pedal_prog =>
      if cfg.sustain_pedal_duration ∧ next?.isSome then
        match next? with
        | some nt =>
          if nt.ttype = "Duration" then
            match tokenDurationToTicks nt.tval cfg.time_division with
            | none => none
            | some d =>
                some (mlAddPedal cfg st pedal_prog (st.current_tick, (d : Int)))
          else some st
        | none => some st
      else
        if memA st.active_pedals pedal_prog then some st
        else
          let ap := setA st.active_pedals pedal_prog st.current_tick
          some { st with active_pedals := ap }
  else if tok.ttype = "PedalOff" then
    match (if cfg.use_programs then TokVal.intVal tok.tval
           else some st.current_program) with
    | none => none
    | some pedal_prog =>
      match lookupA st.active_pedals pedal_prog with
      | none => some st
      | some onset =>
        let st2 := mlAddPedal cfg st pedal_prog (onset, st.current_tick - onset)
        some { st2 with active_pedals := eraseA st2.active_pedals pedal_prog }
  else if tok.ttype = "PitchBend" then
    match TokVal.intVal tok.tval with
    | none => none
    | some v => some (mlAddBend cfg st st.current_program (st.current_tick, v))
  else some st

/-- The decode loop over one token sequence, threading the ti + 1 lookahead. -/
def mlDecodeSeq (cfg : MLConfig) (maxDur : Option Nat) (first_seq : Bool) :
    MLState → List Tok → Option MLState
  | st, [] => some st
  | st, t :: rest =>
    match mlStep cfg maxDur first_seq st t rest.head? with
    | none => none
    | some st1 => mlDecodeSeq cfg maxDur first_seq st1 rest

/-- All notes of one flushed pitch queue, each given the max duration. -/
def flushQueue (m : Nat) (p : Int) (q : List (Int × Int)) : List MNote :=
  q.map (fun ov =>
    { start := ov.1, duration := (m : Int), pitch := p, velocity := ov.2 })

/-- All notes of one flushed per-program pitch dictionary. -/
def flushTrack (pd : List (Int × List (Int × Int))) (m : Nat) : List MNote :=
  (pd.map (fun pq => flushQueue m pq.1 pq.2)).flatten

/-- One inner step of the one-token-stream flush: check_inst then append. -/
def flushOne (tr : List (Int × MTrack)) (g : Int) (n : MNote) :
    List (Int × MTrack) :=
  appendNoteT (checkInst tr g) g n

/-- The one-token-stream branch of clear_active_notes (lines 176-189):
every queued (onset, velocity) of every program and pitch becomes a note of
length max_duration in that program track. -/
def flushAllNotes (m : Nat) (an : ANotes) (tr : List (Int × MTrack)) :
    List (Int × MTrack) :=
  an.foldl (fun tr0 gpd =>
    gpd.2.foldl (fun tr1 pq =>
      pq.2.foldl (fun tr2 ov =>
        flushOne tr2 gpd.1
          { start := ov.1, duration := (m : Int), pitch := pq.1,
            velocity := ov.2 }) tr1) tr0) tr

/-- clear_active_notes (lines 175-197 of midi_like.py): with a configured
max duration the still-queued onsets are flushed as notes of that duration;
without one the function does nothing and the queued entries are dropped. -/
def clearActiveNotes (cfg : MLConfig) (maxDur : Option Nat) (st : MLState) :
    Option MLState :=
  match maxDur with
  | none => some st
  | some m =>
    if cfg.one_token_stream then
      some { st with tracks := flushAllNotes m st.active_notes st.tracks }
    else
      match lookupA st.active_notes st.cur_instr.program with
      | none => none
      | some pd =>
        some { st with cur_instr :=
          { st.cur_instr with notes := st.cur_instr.notes ++ flushTrack pd m } }

/-- Initial decode state of MIDILike._tokens_to_midi. -/
def mlInitState (cfg : MLConfig) : MLState :=
  { tracks := [],
    tempos := [],
    timesigs := [],
    active_notes := initANotes cfg,
    current_tick := 0,
    current_program := 0,
    ppo := cfg.programs.map (fun g => (g, (-128 : Int))),
    ppc := cfg.programs.map (fun g => (g, (-128 : Int))),
    active_pedals := [],
    cur_instr := newTrack 0 }

/-- Per-sequence reset of the tracking variables (lines 200-218). -/
def mlSeqInit (cfg : MLConfig) (hints : Option (List (Int × Bool)))
    (si : Nat) (st : MLState) : Option MLState :=
  let st1 := { st with
    current_tick := 0,
    current_program := 0,
    ppo := cfg.programs.map (fun g => (g, (-128 : Int))),
    ppc := cfg.programs.map (fun g => (g, (-128 : Int))),
    active_pedals := [] }
  if cfg.one_token_stream then some st1
  else
    match hints with
    | none => some { st1 with cur_instr := newTrack 0 }
    | some hl =>
      match hl.get? si with
      | none => none
      | some (prog, drum) =>
        some { st1 with
          current_program := prog
          cur_instr := { program := prog, is_drum := drum, notes := [],
                         pedals := [], pitch_bends := [] } }

/-- The outer sequence loop of MIDILike._tokens_to_midi (lines 200-337),
accumulating the midi track list of the non-concatenated mode. -/
def mlDecodeAll (cfg : MLConfig) (maxDur : Option Nat)
    (hints : Option (List (Int × Bool))) :
    Nat → MLState → List MTrack → List (List Tok) →
    Option (MLState × List MTrack)
  | _, st, acc, [] => some (st, acc)
  | si, st, acc, seq :: rest =>
    match mlSeqInit cfg hints si st with
    | none => none
    | some st1 =>
      match mlDecodeSeq cfg maxDur (si = 0) st1 seq with
      | none => none
      | some st2 =>
        if cfg.one_token_stream then
          mlDecodeAll cfg maxDur hints (si + 1) st2 acc rest
        else
          -- append the track, flush its program, reset that program queue
          match clearActiveNotes cfg maxDur st2 with
          | none => none
          | some st3 =>
            let an4 := setA st3.active_notes st3.cur_instr.program
              (freshPitchDict cfg)
            let st4 := { st3 with active_notes := an4 }
            mlDecodeAll cfg maxDur hints (si + 1) st4 (acc ++ [st3.cur_instr])
              rest

/-- The decoded output: tracks, tempo and time-signature changes. -/
structure MidiOut where
  tracks : List MTrack
  tempos : List (Int × TokVal)
  timesigs : List (Int × TokVal)
deriving DecidableEq, Repr

/-- MIDILike._tokens_to_midi over the list of token sequences (the list is
the single concatenated sequence wrapped in a singleton when
one_token_stream is true, lines 140-141). -/
def mlTokensToMidi (cfg : MLConfig) (seqs : List (List Tok))
    (hints : Option (List (Int × Bool))) : Option MidiOut :=
  match mlDecodeAll cfg (mlMaxDurTicks cfg) hints 0 (mlInitState cfg) [] seqs with
  | none => none
  | some (st, acc) =>
    if cfg.one_token_stream then
      match clearActiveNotes cfg (mlMaxDurTicks cfg) st with
      | none => none
      | some st2 =>
        some { tracks := st2.tracks.map Prod.snd, tempos := st2.tempos,
               timesigs := st2.timesigs }
    else
      some { tracks := acc, tempos := st.tempos, timesigs := st.timesigs }

/-! ## MIDILike: token-type graph and validity scoring (midi_like.py) -/

/-- Adjacency map of permitted successor token types. -/
abbrev TGraph : Type := List (String × List String)

/-- Python dic[k].append / dic[k] += vs: extends the list bound to an
existing key; the source only ever appends to keys it created before. -/
def gapp (d : TGraph) (k : String) (vs : List String) : TGraph :=
  match lookupA d k with
  | some l => setA d k (l ++ vs)
  | none => d

/-- Python k in dic. -/
def gmem (d : TGraph) (k : String) : Bool := (lookupA d k).isSome

/-- MIDILike._create_token_types_graph (lines 386-559 of midi_like.py),
transcribed block by block in source order. -/
def mlTokensTypesGraph (cfg : MLConfig) : TGraph :=
  let dic : TGraph := [("NoteOn", ["Velocity"])]
  let first := if cfg.use_programs then
      (if cfg.program_changes then "NoteOn" else "Program") else "NoteOn"
  let dic := if cfg.use_programs then setA dic "Program" ["NoteOn", "NoteOff"]
             else dic
  let dic := setA dic "Velocity" [first, "TimeShift"]
  let dic := setA dic "NoteOff" ["NoteOff", first, "TimeShift"]
  let dic := setA dic "TimeShift" ["NoteOff", first, "TimeShift"]
  let dic :=
    if cfg.use_pitch_intervals then
      let step := fun (d : TGraph) (tt : String) =>
        let d := setA d tt ["Velocity"]
        if cfg.use_programs then gapp d "Program" [tt]
        else gapp (gapp (gapp d "Velocity" [tt]) "NoteOff" [tt]) "TimeShift" [tt]
      step (step dic "PitchIntervalTime") "PitchIntervalChord"
    else dic
  let dic :=
    if cfg.program_changes then
      gapp (gapp dic "Velocity" ["Program"]) "NoteOff" ["Program"]
    else dic
  let dic :=
    if cfg.use_chords then
      let dic := setA dic "Chord" [first]
      let dic := gapp dic "TimeShift" ["Chord"]
      let dic := gapp dic "NoteOff" ["Chord"]
      let dic := if cfg.use_programs then gapp dic "Program" ["Chord"] else dic
      if cfg.use_pitch_intervals then
        gapp dic "Chord" ["PitchIntervalTime", "PitchIntervalChord"]
      else dic
    else dic
  let dic :=
    if cfg.use_tempos then
      let dic := gapp dic "TimeShift" ["Tempo"]
      let dic := setA dic "Tempo" [first, "TimeShift"]
      let dic := if ¬ cfg.use_programs ∨ cfg.program_changes then
                   gapp dic "Tempo" ["NoteOff"] else dic
      let dic := if cfg.use_chords then gapp dic "Tempo" ["Chord"] else dic
      let dic := if cfg.use_rests then gapp dic "Tempo" ["Rest"] else dic
      if cfg.use_pitch_intervals then
        gapp dic "Tempo" ["PitchIntervalTime", "PitchIntervalChord"]
      else dic
    else dic
  let dic :=
    if cfg.use_time_signatures then
      let dic := gapp dic "TimeShift" ["TimeSig"]
      let dic := setA dic "TimeSig" [first, "TimeShift"]
      let dic := if ¬ cfg.use_programs ∨ cfg.program_changes then
                   gapp dic "TimeSig" ["NoteOff"] else dic
      let dic := if cfg.use_chords then gapp dic "TimeSig" ["Chord"] else dic
      let dic := if cfg.use_rests then gapp dic "TimeSig" ["Rest"] else dic
      let dic := if cfg.use_tempos then gapp dic "TimeSig" ["Tempo"] else dic
      if cfg.use_pitch_intervals then
        gapp dic "TimeSig" ["PitchIntervalTime", "PitchIntervalChord"]
      else dic
    else dic
  let dic :=
    if cfg.use_sustain_pedals then
      let dic := gapp dic "TimeShift" ["Pedal"]
      let dic := gapp dic "NoteOff" ["Pedal"]
      let dic := if ¬ cfg.sustain_pedal_duration then
                   gapp dic "NoteOff" ["PedalOff"] else dic
      let dic :=
        if cfg.sustain_pedal_duration then
          let dic := setA dic "Pedal" ["Duration"]
          let dic := setA dic "Duration" [first, "NoteOff", "TimeShift", "Pedal"]
          if cfg.use_pitch_intervals then
            gapp dic "Duration" ["PitchIntervalTime", "PitchIntervalChord"]
          else dic
        else
          let dic := setA dic "PedalOff"
            ["Pedal", "PedalOff", first, "NoteOff", "TimeShift"]
          let dic := setA dic "Pedal" ["Pedal", first, "NoteOff", "TimeShift"]
          gapp dic "TimeShift" ["PedalOff"]
      let dic :=
        if cfg.use_chords then
          let dic := gapp dic "Pedal" ["Chord"]
          if ¬ cfg.sustain_pedal_duration then
            gapp (gapp dic "PedalOff" ["Chord"]) "Chord" ["PedalOff"]
          else dic
        else dic
      let dic :=
        if cfg.use_rests then
          let dic := gapp dic "Pedal" ["Rest"]
          if ¬ cfg.sustain_pedal_duration then gapp dic "PedalOff" ["Rest"]
          else dic
        else dic
      let dic :=
        if cfg.use_tempos then
          let dic := gapp dic "Tempo" ["Pedal"]
          if ¬ cfg.sustain_pedal_duration then gapp dic "Tempo" ["PedalOff"]
          else dic
        else dic
      if cfg.use_time_signatures then
        let dic := gapp dic "TimeSig" ["Pedal"]
        if ¬ cfg.sustain_pedal_duration then gapp dic "TimeSig" ["PedalOff"]
        else dic
      else dic
    else dic
  let dic :=
    if cfg.use_pitch_bends then
      let dic := setA dic "PitchBend" [first, "NoteOff", "TimeShift"]
      let dic :=
        if cfg.use_programs ∧ ¬ cfg.program_changes then
          gapp dic "Program" ["PitchBend"]
        else
          let dic := gapp dic "TimeShift" ["PitchBend"]
          let dic := gapp dic "NoteOff" ["PitchBend"]
          let dic := if cfg.use_tempos then gapp dic "Tempo" ["PitchBend"]
                     else dic
          let dic := if cfg.use_time_signatures then
                       gapp dic "TimeSig" ["PitchBend"] else dic
          if cfg.use_sustain_pedals then
            let dic := gapp dic "Pedal" ["PitchBend"]
            if cfg.sustain_pedal_duration then gapp dic "Duration" ["PitchBend"]
            else gapp dic "PedalOff" ["PitchBend"]
          else dic
      let dic := if cfg.use_chords then gapp dic "PitchBend" ["Chord"] else dic
      if cfg.use_rests then gapp dic "PitchBend" ["Rest"] else dic
    else dic
  let dic :=
    if cfg.use_rests then
      let dic := setA dic "Rest" ["Rest", first, "TimeShift"]
      let dic := gapp dic "NoteOff" ["Rest"]
      let dic := if cfg.use_chords then gapp dic "Rest" ["Chord"] else dic
      let dic := if cfg.use_tempos then gapp dic "Rest" ["Tempo"] else dic
      let dic := if cfg.use_time_signatures then gapp dic "Rest" ["TimeSig"]
                 else dic
      let dic :=
        if cfg.use_sustain_pedals then
          let dic := gapp dic "Rest" ["Pedal"]
          if cfg.sustain_pedal_duration then gapp dic "Duration" ["Rest"]
          else gapp (gapp dic "Rest" ["PedalOff"]) "PedalOff" ["Rest"]
        else dic
      let dic := if cfg.use_pitch_bends then gapp dic "Rest" ["PitchBend"]
                 else dic
      if cfg.use_pitch_intervals then
        gapp dic "Rest" ["PitchIntervalTime", "PitchIntervalChord"]
      else dic
    else gapp dic "TimeShift" ["TimeShift"]
  let dic :=
    if cfg.program_changes then
      ["TimeShift", "Rest", "PitchBend", "Pedal", "PedalOff", "Tempo",
       "TimeSig", "Chord"].foldl (fun d tt =>
        if gmem d tt then gapp (gapp d "Program" [tt]) tt ["Program"] else d)
        dic
    else dic
  dic

/-- The value of current_program_noff inside the lookahead scan of
tokens_errors: its initial value is the integer current_program, but the
assignment at line 676 of midi_like.py stores the raw token value, which a
Python comparison with an integer never equals. -/
inductive ProgVal where
  | int (n : Int)
  | raw (v : TokVal)
deriving DecidableEq, Repr

/-- Python current_program_noff == current_program. -/
def progEq : ProgVal → Int → Bool
  | .int n, m => n = m
  | .raw _, _ => false

/-- The lookahead scan of MIDILike.tokens_errors (lines 657-681): from the
tokens after a valid note-on, find a NoteOff of the same pitch before the
accumulated time advance exceeds max_duration; returns the error increment. -/
def scanOff (cfg : MLConfig) (maxDur : Nat) (pitch : Int) (g : Int) :
    ProgVal → Nat → List Tok → Option Nat
  | _, _, [] => some 0
  | cpn, offset, e :: rest =>
    if e.ttype = "NoteOff" then
      match TokVal.intVal e.tval with
      | none => none
      | some v =>
        if v = pitch then
          -- both break with no error, whatever the program comparison says
          if cfg.use_programs ∧ progEq cpn g then some 0 else some 0
        else if offset > maxDur then some 1
        else scanOff cfg maxDur pitch g cpn offset rest
    else if e.ttype = "TimeShift" ∨ e.ttype = "Rest" then
      match tokenDurationToTicks e.tval cfg.time_division with
      | none => none
      | some t =>
        if offset + t > maxDur then some 1
        else scanOff cfg maxDur pitch g cpn (offset + t) rest
    else if e.ttype = "Program" then
      if offset > maxDur then some 1
      else scanOff cfg maxDur pitch g (ProgVal.raw e.tval) offset rest
    else
      if offset > maxDur then some 1
      else scanOff cfg maxDur pitch g cpn offset rest

/-- Per-program active-pitch counters of tokens_errors. -/
abbrev APitches : Type := List (Int × List (Int × Nat))

/-- active_pitches[g][p] read; none models KeyError. -/
def apGet (ap : APitches) (g p : Int) : Option Nat :=
  match lookupA ap g with
  | none => none
  | some d => lookupA d p

/-- active_pitches[g][p] update; none models KeyError. -/
def apUpdate (ap : APitches) (g p : Int) (f : Nat → Nat) : Option APitches :=
  match lookupA ap g with
  | none => none
  | some d =>
    match lookupA d p with
    | none => none
    | some c => some (setA ap g (setA d p (f c)))

/-- Scratch state of MIDILike.tokens_errors (lines 588-606). -/
structure TEState where
  err : Nat
  current_program : Int
  active_pitches : APitches
  cpt : List (Int × List Int)
  ppo : List (Int × Int)
  ppc : List (Int × Int)
deriving DecidableEq, Repr

/-- Pitch computation of the note-on branch of tokens_errors
(lines 630-644). -/
def tePitchOf (st : TEState) (e : Tok) : Option (Int × TEState) :=
  if e.ttype = "NoteOn" then
    match TokVal.intVal e.tval with
    | none => none
    | some p =>
      some (p, { st with ppo := setA st.ppo st.current_program p,
                         ppc := setA st.ppc st.current_program p })
  else if e.ttype = "PitchIntervalTime" then
    match TokVal.intVal e.tval, lookupA st.ppo st.current_program with
    | some dv, some prev =>
      let p := prev + dv
      some (p, { st with ppo := setA st.ppo st.current_program p,
                         ppc := setA st.ppc st.current_program p })
    | _, _ => none
  else
    match TokVal.intVal e.tval, lookupA st.ppc st.current_program with
    | some dv, some prev =>
      let p := prev + dv
      some (p, { st with ppc := setA st.ppc st.current_program p })
    | _, _ => none

/-- One iteration of the scoring loop of MIDILike.tokens_errors
(lines 614-691).  prev? is the type of the event at i - 1, tail the events
after i. -/
def teStep (cfg : MLConfig) (graph : TGraph) (maxDur : Option Nat)
    (prev? : Option String) (st : TEState) (e : Tok) (tail : List Tok) :
    Option TEState :=
  match (match prev? with
         | none => some false
         | some pt =>
           match lookupA graph pt with
           | none => none
           | some succ => some (decide (e.ttype ∉ succ))) with
  | none => none
  | some bad =>
    if bad then some { st with err := st.err + 1 }
    else if e.ttype = "NoteOn" ∨ e.ttype = "PitchIntervalTime" ∨
        e.ttype = "PitchIntervalChord" then
      match tePitchOf st e with
      | none => none
      | some (pitch_val, st1) =>
        match apUpdate st1.active_pitches st1.current_program pitch_val
            (fun c => c + 1) with
        | none => none
        | some ap =>
          let st2 := { st1 with active_pitches := ap }
          match lookupA st2.cpt st2.current_program with
          | none => none
          | some cl =>
            if cfg.remove_duplicated_notes ∧ pitch_val ∈ cl then
              some { st2 with err := st2.err + 1 }
            else
              let cpt3 := setA st2.cpt st2.current_program (cl ++ [pitch_val])
              let st3 := { st2 with cpt := cpt3 }
              match maxDur with
              | none => some st3
              | some m =>
                match scanOff cfg m pitch_val st3.current_program
                    (ProgVal.int st3.current_program) 0 tail with
                | none => none
                | some dErr => some { st3 with err := st3.err + dErr }
    else if e.ttype = "NoteOff" then
      match TokVal.intVal e.tval with
      | none => none
      | some v =>
        match apGet st.active_pitches st.current_program v with
        | none => none
        | some c =>
          if c = 0 then some { st with err := st.err + 1 }
          else
            match apUpdate st.active_pitches st.current_program v
                (fun c0 => c0 - 1) with
            | none => none
            | some ap => some { st with active_pitches := ap }
    else if e.ttype = "Program" ∧ tail.length ≥ 1 then
      match TokVal.intVal e.tval with
      | none => none
      | some v => some { st with current_program := v }
    else if e.ttype = "TimeShift" ∨ e.ttype = "Rest" then
      some { st with cpt := cfg.programs.map (fun p => (p, ([] : List Int))) }
    else some st

/-- The scoring loop over all events. -/
def teLoop (cfg : MLConfig) (graph : TGraph) (maxDur : Option Nat) :
    Option String → TEState → List Tok → Option TEState
  | _, st, [] => some st
  | prev?, st, e :: rest =>
    match teStep cfg graph maxDur prev? st e rest with
    | none => none
    | some st2 => teLoop cfg graph maxDur (some e.ttype) st2 rest

/-- Initial scratch state of tokens_errors. -/
def teInit (cfg : MLConfig) : TEState :=
  { err := 0,
    current_program := 0,
    active_pitches := cfg.programs.map
      (fun g => (g, (pitchRangeList cfg).map (fun p => (p, (0 : Nat))))),
    cpt := cfg.programs.map (fun p => (p, ([] : List Int))),
    ppo := cfg.programs.map (fun g => (g, (-128 : Int))),
    ppc := cfg.programs.map (fun g => (g, (-128 : Int))) }

/-- The total error count of MIDILike.tokens_errors on a token sequence. -/
def mlTokensErrCount (cfg : MLConfig) (toks : List Tok) : Option Nat :=
  (teLoop cfg (mlTokensTypesGraph cfg) (mlMaxDurTicks cfg) none (teInit cfg)
    toks).map TEState.err

/-- MIDILike.tokens_errors (lines 562-692): the empty sequence scores 0,
otherwise the error count is divided by the token count. -/
def mlTokensErrors (cfg : MLConfig) (toks : List Tok) : Option ℚ :=
  if toks.length = 0 then some 0
  else (mlTokensErrCount cfg toks).map
    (fun e : Nat => (e : ℚ) / (toks.length : ℚ))

/-! ## Structured tokenizer (structured.py) -/

/-- Ticks of one duration-table triple at a given ticks-per-beat. -/
def durTicks (d : Nat × Nat × Nat) (tpb : Nat) : Nat :=
  d.1 * tpb + d.2.1 * (tpb / d.2.2)

/-- The largest-ticks entry of a duration table (none when empty). -/
def maxDurOfTable (tbl : List (Nat × Nat × Nat)) (tpb : Nat) :
    Option (Nat × Nat × Nat) :=
  tbl.foldl (fun acc d =>
    match acc with
    | none => some d
    | some b => if durTicks d tpb > durTicks b tpb then some d else some b)
    none

/-- Modelled from the spec: the base-class table _tpb_ticks_to_tokens
(absent from src/) maps a tick count to its duration token, clamping to the
maximum representable duration when the tick count exceeds the table; a tick
count below the maximum that matches no entry has no token (KeyError). -/
def ticksToDurToken (tbl : List (Nat × Nat × Nat)) (tpb : Nat) (ticks : Nat) :
    Option TokVal :=
  match maxDurOfTable tbl tpb with
  | none => none
  | some mx =>
    if ticks > durTicks mx tpb then some (TokVal.dur mx.1 mx.2.1 mx.2.2)
    else (tbl.find? (fun d => durTicks d tpb = ticks)).map
      (fun d => TokVal.dur d.1 d.2.1 d.2.2)

/-- Modelled from the spec: the inverse table _tpb_tokens_to_ticks (absent
from src/) maps a duration-token value that appears in the table back to its
tick count; anything else raises KeyError. -/
def durTokenToTicks (tbl : List (Nat × Nat × Nat)) (tpb : Nat) :
    TokVal → Option Nat
  | .dur b f r => if (b, f, r) ∈ tbl then some (durTicks (b, f, r) tpb)
                  else none
  | _ => none

/-- An encode-side event: type tag, value and tick (structured.py builds
them with a desc field too, which is debug text and is not carried). -/
structure SEv where
  type_ : String
  value : TokVal
  time : Int
deriving DecidableEq, Repr

/-- The time-shift value inserted by structured.py (lines 66-73 and
134-140): the sentinel 0.0.1 for a zero gap, the table token otherwise; a
negative gap can not index the table (KeyError). -/
def structuredShiftVal (tbl : List (Nat × Nat × Nat)) (tpb : Nat)
    (gap : Int) : Option TokVal :=
  if gap = 0 then some (TokVal.dur 0 0 1)
  else if gap < 0 then none
  else ticksToDurToken tbl tpb gap.toNat

/-- Structured._create_track_events (lines 41-111 of structured.py): per
note, an optional TimeShift (multi-stream mode only), an optional Program,
then Pitch, Velocity, Duration. -/
def structuredCreateTrackEvents (useProg oneStream : Bool)
    (tbl : List (Nat × Nat × Nat)) (tpb : Nat) (program : Int) :
    Int → List MNote → Option (List SEv)
  | _, [] => some []
  | prev, n :: rest =>
    let tsEvs : Option (List SEv) :=
      if oneStream then some []
      else
        match structuredShiftVal tbl tpb (n.start - prev) with
        | none => none
        | some v => some [{ type_ := "TimeShift", value := v, time := n.start }]
    match tsEvs with
    | none => none
    | some tsl =>
      match (if n.duration < 0 then none
             else ticksToDurToken tbl tpb n.duration.toNat) with
      | none => none
      | some dv =>
        let progl : List SEv :=
          if useProg then
            [{ type_ := "Program", value := TokVal.num program,
               time := n.start }]
          else []
        match structuredCreateTrackEvents useProg oneStream tbl tpb program
            n.start rest with
        | none => none
        | some evrest =>
          some (tsl ++ progl ++
            [{ type_ := "Pitch", value := TokVal.num n.pitch, time := n.start },
             { type_ := "Velocity", value := TokVal.num n.velocity,
               time := n.start },
             { type_ := "Duration", value := dv, time := n.start }] ++ evrest)

/-- Structured._add_time_events (lines 113-153 of structured.py): walk the
events, inserting one TimeShift immediately before each event whose type is
Program (one-token-stream mode) or Pitch (otherwise). -/
def structuredAddTimeEvents (check : String) (tbl : List (Nat × Nat × Nat))
    (tpb : Nat) : Int → List SEv → Option (List SEv)
  | _, [] => some []
  | prev, e :: rest =>
    if e.type_ = check then
      match structuredShiftVal tbl tpb (e.time - prev) with
      | none => none
      | some v =>
        match structuredAddTimeEvents check tbl tpb e.time rest with
        | none => none
        | some out =>
          some ({ type_ := "TimeShift", value := v, time := e.time } :: e :: out)
    else
      match structuredAddTimeEvents check tbl tpb prev rest with
      | none => none
      | some out => some (e :: out)

/-- token_type_to_check of Structured._add_time_events (line 127). -/
def structuredCheckType (oneStream : Bool) : String :=
  if oneStream then "Program" else "Pitch"

/-- Decode state of Structured._tokens_to_midi. -/
structure SDState where
  instruments : List (Int × MTrack)
  current_tick : Int
  current_program : Int
  cur_instr : MTrack
deriving DecidableEq, Repr

/-- Where a note decoded by Structured lands. -/
def sdNotesDest (oneStream : Bool) (st : SDState) (g : Int) : List MNote :=
  if oneStream then
    match lookupA st.instruments g with
    | some t => t.notes
    | none => []
  else st.cur_instr.notes

/-- Append a note decoded by Structured (lines 271-276 of structured.py). -/
def sdAddNote (oneStream : Bool) (st : SDState) (g : Int) (n : MNote) :
    SDState :=
  if oneStream then
    { st with instruments := appendNoteT (checkInst st.instruments g) g n }
  else
    { st with cur_instr :=
        { st.cur_instr with notes := st.cur_instr.notes ++ [n] } }

/-- One iteration of the decode loop of Structured._tokens_to_midi
(lines 254-283).  rest holds the tokens after index ti; the Pitch branch
looks two tokens ahead and an IndexError from running off the end is caught
and ignored, while a ValueError or KeyError would propagate (none). -/
def stStep (oneStream : Bool) (tbl : List (Nat × Nat × Nat)) (tpb : Nat)
    (st : SDState) (tok : Tok) (rest : List Tok) : Option SDState :=
  if tok.ttype = "TimeShift" ∧ tok.tval ≠ TokVal.dur 0 0 1 then
    match durTokenToTicks tbl tpb tok.tval with
    | none => none
    | some t => some { st with current_tick := st.current_tick + (t : Int) }
  else if tok.ttype = "Pitch" then
    match rest with
    | t1 :: t2 :: _ =>
      if t1.ttype = "Velocity" ∧ t2.ttype = "Duration" then
        match TokVal.intVal tok.tval, TokVal.intVal t1.tval,
            durTokenToTicks tbl tpb t2.tval with
        | some p, some v, some d =>
          some (sdAddNote oneStream st st.current_program
            { start := st.current_tick, duration := (d : Int), pitch := p,
              velocity := v })
        | _, _, _ => none
      else some st
    | _ => some st
  else if tok.ttype = "Program" then
    match TokVal.intVal tok.tval with
    | none => none
    | some v => some { st with current_program := v }
  else some st

/-- The decode loop of Structured._tokens_to_midi over one sequence. -/
def stDecodeSeq (oneStream : Bool) (tbl : List (Nat × Nat × Nat)) (tpb : Nat) :
    SDState → List Tok → Option SDState
  | st, [] => some st
  | st, t :: rest =>
    match stStep oneStream tbl tpb st t rest with
    | none => none
    | some st1 => stDecodeSeq oneStream tbl tpb st1 rest

/-! ## MMM multi-track wrapper (mmm.py) -/

/-- Indices of the Track_Start id in the id sequence, in order
(np.where at lines 237-239 of mmm.py). -/
def positionsFrom (x : Nat) : Nat → List Nat → List Nat
  | _, [] => []
  | i, a :: l =>
    if a = x then i :: positionsFrom x (i + 1) l
    else positionsFrom x (i + 1) l

/-- Positions of an id in a sequence, starting the count at 0. -/
def positionsOf (x : Nat) (ids : List Nat) : List Nat :=
  positionsFrom x 0 ids

/-- Python ids[a:b]. -/
def sliceIds (ids : List Nat) (a b : Nat) : List Nat :=
  (ids.drop a).take (b - a)

/-- The slice loop of MMM.split_tokseq_per_track (lines 244-252): slice
between consecutive Track_Start positions, the last slice running to the
end; without keep the leading Track_Start and the element before the next
Track_Start are dropped. -/
def splitGo (keep : Bool) (ids : List Nat) : List Nat → List (List Nat)
  | [] => []
  | [p] => [ids.drop (if keep then p else p + 1)]
  | p :: q :: rest =>
    sliceIds ids (if keep then p else p + 1) (if keep then q else q - 1) ::
      splitGo keep ids (q :: rest)

/-- MMM.split_tokseq_per_track (lines 224-254 of mmm.py) on the ids view. -/
def splitTokseqPerTrack (tsId : Nat) (keep : Bool) (ids : List Nat) :
    List (List Nat) :=
  let idxs := positionsOf tsId ids
  if idxs = [] then [ids] else splitGo keep ids idxs

/-- MMM._add_time_events wrapping (lines 96-98) seen on the ids view: a
track sequence is its Track_Start id, the base-tokenizer ids of the track,
then its Track_End id. -/
def mmmWrapTrack (tsId teId : Nat) (body : List Nat) : List Nat :=
  tsId :: body ++ [teId]

/-- MMM._score_to_tokens concatenation (lines 177-184): the per-track
sequences are summed into one sequence in track order. -/
def mmmScoreToTokens (tsId teId : Nat) (bodies : List (List Nat)) :
    List Nat :=
  (bodies.map (mmmWrapTrack tsId teId)).flatten

/-- MMM.encode_token_ids (lines 186-219): with no id split configured the
whole sequence goes to the parent encoder; otherwise the sequence is split
per track with the delimiters kept, each slice is encoded (the parent
method, absent from src/, is modelled from the spec as a per-sequence
encoder applied element-for-element to the batch) and the encoded ids are
concatenated back in order. -/
def mmmEncodeTokenIds (encodeIdsSplit : String)
    (enc : List Nat → List Nat) (tsId : Nat) (ids : List Nat) : List Nat :=
  if encodeIdsSplit = "no" then enc ids
  else ((splitTokseqPerTrack tsId true ids).map enc).flatten


/-- Claim-side description of the strip-mode slices (the C6 amendment):
every body except the last is returned bare, and the last body keeps its
trailing Track_End id. -/
def stripExpected (teId : Nat) : List (List Nat) → List (List Nat)
  | [] => []
  | [b] => [b ++ [teId]]
  | b :: b2 :: rest => b :: stripExpected teId (b2 :: rest)


/-- The notes currently in the per-program track dictionary for a program
(empty when the track does not exist yet). -/
def notesAtT (tracks : List (Int × MTrack)) (g : Int) : List MNote :=
  match lookupA tracks g with
  | some t => t.notes
  | none => []

/-- A small concrete configuration for witnesses: one token stream with
programs, programs [0], pitches 60-64, time division 8, no max duration. -/
def cfgW : MLConfig :=
  { one_token_stream := true, use_programs := true, program_changes := false,
    use_pitch_intervals := false, use_chords := false, use_tempos := false,
    use_time_signatures := false, use_sustain_pedals := false,
    sustain_pedal_duration := false, use_pitch_bends := false,
    use_rests := false, remove_duplicated_notes := false, programs := [0],
    pitch_min := 60, pitch_max := 64, max_duration := none,
    time_division := 8 }

/-- cfgW with a configured max duration of 4 ticks (0 beats plus 2 frames at
4 frames per beat, at time division 8). -/
def cfgWmax : MLConfig :=
  { cfgW with max_duration := some (TokVal.dur 0 2 4) }

/-- cfgW in multi-stream mode (one independent sequence per track). -/
def cfgWm : MLConfig := { cfgW with one_token_stream := false }


/-- Claim-side property for C9 (stated from the claim wording): walking the
event list, a single TimeShift stands immediately before each group-start
event, carrying the sentinel 0.0.1 when the gap from the previous group is
exactly zero and the (clamped) table token for the gap otherwise; every
other event is neither a Rest nor a TimeShift. -/
inductive SingleTimeShiftTimed (check : String) (tbl : List (Nat × Nat × Nat))
    (tpb : Nat) : Int → List SEv → Prop
  | nil (prev : Int) : SingleTimeShiftTimed check tbl tpb prev []
  | skip (prev : Int) (e : SEv) (rest : List SEv) :
      e.type_ ≠ check → e.type_ ≠ "Rest" → e.type_ ≠ "TimeShift" →
      SingleTimeShiftTimed check tbl tpb prev rest →
      SingleTimeShiftTimed check tbl tpb prev (e :: rest)
  | group (prev : Int) (e : SEv) (tsv : TokVal) (rest : List SEv) :
      e.type_ = check →
      ((e.time - prev = 0 ∧ tsv = TokVal.dur 0 0 1) ∨
       (e.time - prev ≠ 0 ∧ 0 ≤ e.time - prev ∧
        ticksToDurToken tbl tpb (e.time - prev).toNat = some tsv)) →
      SingleTimeShiftTimed check tbl tpb e.time rest →
      SingleTimeShiftTimed check tbl tpb prev
        ({ type_ := "TimeShift", value := tsv, time := e.time } :: e :: rest)

/-- A small concrete duration table for witnesses: at 8 ticks per beat its
entries cover 2, 4, 6, 8 and 16 ticks. -/
def tblW : List (Nat × Nat × Nat) :=
  [(0, 1, 4), (0, 2, 4), (0, 3, 4), (1, 0, 1), (2, 0, 1)]


/-- Claim-side rendition of the tokens_errors lookahead scan with the
program tracking removed (stated from the C10 claim wording): the scan
stops successfully, counting no error, at the first NoteOff whose value
equals the onset pitch; otherwise it accumulates time advances and counts
one error once the accumulated time exceeds the max duration. -/
def scanOffNoProg (cfg : MLConfig) (maxDur : Nat) (pitch : Int) :
    Nat → List Tok → Option Nat
  | _, [] => some 0
  | offset, e :: rest =>
    if e.ttype = "NoteOff" then
      match TokVal.intVal e.tval with
      | none => none
      | some v =>
        if v = pitch then some 0
        else if offset > maxDur then some 1
        else scanOffNoProg cfg maxDur pitch offset rest
    else if e.ttype = "TimeShift" ∨ e.ttype = "Rest" then
      match tokenDurationToTicks e.tval cfg.time_division with
      | none => none
      | some t =>
        if offset + t > maxDur then some 1
        else scanOffNoProg cfg maxDur pitch (offset + t) rest
    else
      if offset > maxDur then some 1
      else scanOffNoProg cfg maxDur pitch offset rest

/-! ## Structural lemmas about the MMM split -/

lemma positionsFrom_nil (x i : Nat) : positionsFrom x i [] = [] := rfl

lemma positionsFrom_cons (x i a : Nat) (l : List Nat) :
    positionsFrom x i (a :: l) =
      if a = x then i :: positionsFrom x (i + 1) l
      else positionsFrom x (i + 1) l := rfl

lemma positionsFrom_ge (x : Nat) :
    ∀ (l : List Nat) (i j : Nat), j ∈ positionsFrom x i l → i ≤ j := by
  intro l
  induction l with
  | nil => intro i j h; simp [positionsFrom_nil] at h
  | cons a t ih =>
    intro i j h
    rw [positionsFrom_cons] at h
    by_cases hax : a = x
    · rw [if_pos hax] at h
      rcases List.mem_cons.mp h with h | h
      · omega
      · have := ih (i + 1) j h; omega
    · rw [if_neg hax] at h
      have := ih (i + 1) j h; omega

lemma positionsFrom_eq_nil (x : Nat) :
    ∀ (l : List Nat) (i : Nat), x ∉ l → positionsFrom x i l = [] := by
  intro l
  induction l with
  | nil => intro i _; rfl
  | cons a t ih =>
    intro i h
    have hax : ¬ a = x := by
      intro hax
      exact h (by rw [← hax]; exact List.mem_cons_self a t)
    rw [positionsFrom_cons, if_neg hax,
      ih (i + 1) (fun ht => h (List.mem_cons_of_mem a ht))]

lemma positionsFrom_append (x : Nat) :
    ∀ (l1 l2 : List Nat) (i : Nat),
      positionsFrom x i (l1 ++ l2) =
        positionsFrom x i l1 ++ positionsFrom x (i + l1.length) l2 := by
  intro l1
  induction l1 with
  | nil => intro l2 i; simp [positionsFrom_nil]
  | cons a t ih =>
    intro l2 i
    rw [List.cons_append, positionsFrom_cons, positionsFrom_cons]
    by_cases hax : a = x
    · rw [if_pos hax, if_pos hax, ih, List.cons_append]
      have h1 : i + 1 + t.length = i + (a :: t).length := by
        simp [List.length_cons]; omega
      rw [h1]
    · rw [if_neg hax, if_neg hax, ih]
      have h1 : i + 1 + t.length = i + (a :: t).length := by
        simp [List.length_cons]; omega
      rw [h1]

lemma positionsFrom_add (x : Nat) :
    ∀ (l : List Nat) (i k : Nat),
      positionsFrom x (i + k) l =
        (positionsFrom x i l).map (fun j => j + k) := by
  intro l
  induction l with
  | nil => intro i k; rfl
  | cons a t ih =>
    intro i k
    rw [positionsFrom_cons, positionsFrom_cons]
    by_cases hax : a = x
    · rw [if_pos hax, if_pos hax, List.map_cons]
      have h1 : i + k + 1 = (i + 1) + k := by omega
      rw [h1, ih]
    · rw [if_neg hax, if_neg hax]
      have h1 : i + k + 1 = (i + 1) + k := by omega
      rw [h1, ih]

lemma positionsOf_wrap_append (tsId teId : Nat) (hne : tsId ≠ teId)
    (b rest : List Nat) (hb : tsId ∉ b) :
    positionsOf tsId (mmmWrapTrack tsId teId b ++ rest) =
      0 :: (positionsOf tsId rest).map (fun j => j + (b.length + 2)) := by
  have hstep : mmmWrapTrack tsId teId b ++ rest =
      tsId :: (b ++ ([teId] ++ rest)) := by
    rw [mmmWrapTrack]; simp
  rw [positionsOf, hstep, positionsFrom_cons, if_pos rfl,
    positionsFrom_append, positionsFrom_eq_nil tsId b 1 hb, List.nil_append,
    List.singleton_append, positionsFrom_cons, if_neg (fun h => hne h.symm)]
  have h1 : 1 + b.length + 1 = 0 + (b.length + 2) := by omega
  rw [h1, positionsFrom_add]
  rfl

lemma sliceIds_shift (ids : List Nat) (a b k : Nat) :
    sliceIds ids (a + k) (b + k) = sliceIds (ids.drop k) a b := by
  unfold sliceIds
  rw [List.drop_drop, Nat.add_comm k a]
  congr 1
  omega

lemma splitGo_true_shift (ids : List Nat) (k : Nat) :
    ∀ idxs : List Nat,
      splitGo true ids (idxs.map (fun j => j + k)) =
        splitGo true (ids.drop k) idxs
  | [] => by rfl
  | [p] => by
    simp only [List.map, splitGo, if_true]
    rw [List.drop_drop, Nat.add_comm k p]
  | p :: q :: rest => by
    have ih := splitGo_true_shift ids k (q :: rest)
    simp only [List.map] at ih
    simp only [List.map, splitGo, if_true]
    rw [ih, sliceIds_shift]

lemma splitGo_false_shift (ids : List Nat) (k : Nat) :
    ∀ idxs : List Nat, (∀ j ∈ idxs.tail, 1 ≤ j) →
      splitGo false ids (idxs.map (fun j => j + k)) =
        splitGo false (ids.drop k) idxs
  | [], _ => by rfl
  | [p], _ => by
    simp only [List.map, splitGo, Bool.false_eq_true, if_false]
    rw [show p + k + 1 = (p + 1) + k by omega, List.drop_drop,
      Nat.add_comm k (p + 1)]
  | p :: q :: rest, h => by
    have hq : 1 ≤ q := h q (List.mem_cons_self q rest)
    have ih := splitGo_false_shift ids k (q :: rest) (by
      intro j hj
      exact h j (List.mem_cons_of_mem q hj))
    simp only [List.map] at ih
    simp only [List.map, splitGo, Bool.false_eq_true, if_false]
    rw [ih, show p + k + 1 = (p + 1) + k by omega,
      show q + k - 1 = (q - 1) + k by omega, sliceIds_shift]

lemma wrap_length (tsId teId : Nat) (b : List Nat) :
    (mmmWrapTrack tsId teId b).length = b.length + 2 := by
  simp [mmmWrapTrack]

lemma score_cons (tsId teId : Nat) (b : List Nat) (rest : List (List Nat)) :
    mmmScoreToTokens tsId teId (b :: rest) =
      mmmWrapTrack tsId teId b ++ mmmScoreToTokens tsId teId rest := by
  simp [mmmScoreToTokens]

lemma score_nil (tsId teId : Nat) : mmmScoreToTokens tsId teId [] = [] := rfl

lemma positionsOf_score_cons (tsId teId : Nat) (hne : tsId ≠ teId)
    (b : List Nat) (rest : List (List Nat)) (hb : tsId ∉ b) :
    positionsOf tsId (mmmScoreToTokens tsId teId (b :: rest)) =
      0 :: (positionsOf tsId (mmmScoreToTokens tsId teId rest)).map
        (fun j => j + (b.length + 2)) := by
  rw [score_cons]
  exact positionsOf_wrap_append tsId teId hne b
    (mmmScoreToTokens tsId teId rest) hb

lemma split_keep_score (tsId teId : Nat) (hne : tsId ≠ teId) :
    ∀ bodies : List (List Nat), bodies ≠ [] → (∀ b ∈ bodies, tsId ∉ b) →
      splitTokseqPerTrack tsId true (mmmScoreToTokens tsId teId bodies) =
        bodies.map (mmmWrapTrack tsId teId)
  | [], h, _ => absurd rfl h
  | [b], _, hmem => by
    have hb : tsId ∉ b := hmem b (List.mem_cons_self b [])
    have hpos := positionsOf_score_cons tsId teId hne b [] hb
    rw [score_nil] at hpos
    have hpos2 : positionsOf tsId (mmmScoreToTokens tsId teId [b]) = [0] := by
      rw [hpos]; rfl
    rw [splitTokseqPerTrack, hpos2]
    simp only [List.cons_ne_self, if_neg, reduceIte]
    rw [splitGo]
    simp [score_cons, score_nil]
  | b :: b2 :: rest, _, hmem => by
    have hb : tsId ∉ b := hmem b (List.mem_cons_self b (b2 :: rest))
    have hmem2 : ∀ x ∈ b2 :: rest, tsId ∉ x := by
      intro x hx
      exact hmem x (List.mem_cons_of_mem b hx)
    have hb2 : tsId ∉ b2 := hmem2 b2 (List.mem_cons_self b2 rest)
    have ih := split_keep_score tsId teId hne (b2 :: rest)
      (List.cons_ne_nil b2 rest) hmem2
    have hpos := positionsOf_score_cons tsId teId hne b (b2 :: rest) hb
    have hpos2 := positionsOf_score_cons tsId teId hne b2 rest hb2
    set ids2 := mmmScoreToTokens tsId teId (b2 :: rest) with hids2
    set tl2 := (positionsOf tsId (mmmScoreToTokens tsId teId rest)).map
      (fun j => j + (b2.length + 2)) with htl2
    -- the positions list of the whole sequence
    have hposall : positionsOf tsId (mmmScoreToTokens tsId teId
        (b :: b2 :: rest)) =
        0 :: (0 + (b.length + 2)) ::
          tl2.map (fun j => j + (b.length + 2)) := by
      rw [hpos, hpos2]
      rfl
    rw [splitTokseqPerTrack, hposall]
    simp only [List.cons_ne_self, reduceIte, List.cons_ne_nil, if_neg]
    rw [splitGo]
    have hslice : sliceIds (mmmScoreToTokens tsId teId (b :: b2 :: rest))
        (if true then 0 else 0 + 1)
        (if true then 0 + (b.length + 2) else 0 + (b.length + 2) - 1) =
        mmmWrapTrack tsId teId b := by
      simp only [if_true, sliceIds, Nat.zero_add, Nat.sub_zero, List.drop_zero]
      rw [score_cons, ← wrap_length tsId teId b, List.take_left]
    rw [hslice]
    have hrest : splitGo true (mmmScoreToTokens tsId teId (b :: b2 :: rest))
        ((0 + (b.length + 2)) :: tl2.map (fun j => j + (b.length + 2))) =
        (b2 :: rest).map (mmmWrapTrack tsId teId) := by
      have hmapform : (0 + (b.length + 2)) ::
          tl2.map (fun j => j + (b.length + 2)) =
          ((0 :: tl2).map (fun j => j + (b.length + 2))) := rfl
      rw [hmapform, splitGo_true_shift]
      have hdrop : (mmmScoreToTokens tsId teId (b :: b2 :: rest)).drop
          (b.length + 2) = ids2 := by
        rw [score_cons, ← wrap_length tsId teId b, List.drop_left]
      rw [hdrop]
      have hpos3 : (0 :: tl2) = positionsOf tsId ids2 := by
        rw [hids2, hpos2]
      rw [hpos3]
      have hne2 : positionsOf tsId ids2 ≠ [] := by
        rw [← hpos3]
        exact List.cons_ne_nil 0 tl2
      rw [splitTokseqPerTrack] at ih
      rw [if_neg hne2] at ih
      exact ih
    rw [hrest]
    rfl

lemma split_false_score (tsId teId : Nat) (hne : tsId ≠ teId) :
    ∀ bodies : List (List Nat), bodies ≠ [] → (∀ b ∈ bodies, tsId ∉ b) →
      splitTokseqPerTrack tsId false (mmmScoreToTokens tsId teId bodies) =
        stripExpected teId bodies
  | [], h, _ => absurd rfl h
  | [b], _, hmem => by
    have hb : tsId ∉ b := hmem b (List.mem_cons_self b [])
    have hpos := positionsOf_score_cons tsId teId hne b [] hb
    rw [score_nil] at hpos
    have hpos2 : positionsOf tsId (mmmScoreToTokens tsId teId [b]) = [0] := by
      rw [hpos]; rfl
    rw [splitTokseqPerTrack, hpos2]
    simp only [reduceIte, List.cons_ne_nil, if_neg]
    rw [splitGo]
    simp only [Bool.false_eq_true, if_false]
    rw [stripExpected, score_cons, score_nil, List.append_nil, mmmWrapTrack]
    rfl
  | b :: b2 :: rest, _, hmem => by
    have hb : tsId ∉ b := hmem b (List.mem_cons_self b (b2 :: rest))
    have hmem2 : ∀ x ∈ b2 :: rest, tsId ∉ x := by
      intro x hx
      exact hmem x (List.mem_cons_of_mem b hx)
    have hb2 : tsId ∉ b2 := hmem2 b2 (List.mem_cons_self b2 rest)
    have ih := split_false_score tsId teId hne (b2 :: rest)
      (List.cons_ne_nil b2 rest) hmem2
    have hpos := positionsOf_score_cons tsId teId hne b (b2 :: rest) hb
    have hpos2 := positionsOf_score_cons tsId teId hne b2 rest hb2
    set ids2 := mmmScoreToTokens tsId teId (b2 :: rest) with hids2
    set tl2 := (positionsOf tsId (mmmScoreToTokens tsId teId rest)).map
      (fun j => j + (b2.length + 2)) with htl2
    have hposall : positionsOf tsId (mmmScoreToTokens tsId teId
        (b :: b2 :: rest)) =
        0 :: (0 + (b.length + 2)) ::
          tl2.map (fun j => j + (b.length + 2)) := by
      rw [hpos, hpos2]
      rfl
    rw [splitTokseqPerTrack, hposall]
    simp only [reduceIte, List.cons_ne_nil, if_neg]
    rw [splitGo]
    simp only [Bool.false_eq_true, if_false]
    have hslice : sliceIds (mmmScoreToTokens tsId teId (b :: b2 :: rest))
        (0 + 1) (0 + (b.length + 2) - 1) = b := by
      have h1 : 0 + (b.length + 2) - 1 - (0 + 1) = b.length := by omega
      rw [sliceIds, h1, score_cons, mmmWrapTrack, List.cons_append]
      show ((b ++ [teId]) ++ mmmScoreToTokens tsId teId (b2 :: rest)).take
        b.length = b
      rw [List.append_assoc, List.take_left]
    rw [hslice]
    have hrest : splitGo false (mmmScoreToTokens tsId teId (b :: b2 :: rest))
        ((0 + (b.length + 2)) :: tl2.map (fun j => j + (b.length + 2))) =
        stripExpected teId (b2 :: rest) := by
      have hmapform : (0 + (b.length + 2)) ::
          tl2.map (fun j => j + (b.length + 2)) =
          ((0 :: tl2).map (fun j => j + (b.length + 2))) := rfl
      rw [hmapform, splitGo_false_shift (mmmScoreToTokens tsId teId
        (b :: b2 :: rest)) (b.length + 2) (0 :: tl2) (by
          intro j hj
          rw [htl2] at hj
          simp only [List.tail_cons] at hj
          obtain ⟨j0, _, hj0⟩ := List.mem_map.mp hj
          omega)]
      have hdrop : (mmmScoreToTokens tsId teId (b :: b2 :: rest)).drop
          (b.length + 2) = ids2 := by
        rw [score_cons, ← wrap_length tsId teId b, List.drop_left]
      rw [hdrop]
      have hpos3 : (0 :: tl2) = positionsOf tsId ids2 := by
        rw [hids2, hpos2]
      rw [hpos3]
      have hne2 : positionsOf tsId ids2 ≠ [] := by
        rw [← hpos3]
        exact List.cons_ne_nil 0 tl2
      rw [splitTokseqPerTrack] at ih
      rw [if_neg hne2] at ih
      exact ih
    rw [hrest]
    rfl

lemma stripExpected_length (teId : Nat) :
    ∀ bodies : List (List Nat),
      (stripExpected teId bodies).length = bodies.length
  | [] => rfl
  | [_] => rfl
  | _ :: b2 :: rest => by
    rw [stripExpected, List.length_cons, List.length_cons,
      stripExpected_length teId (b2 :: rest), List.length_cons]

lemma mem_stripExpected (teId : Nat) :
    ∀ (bodies : List (List Nat)) (sl : List Nat),
      sl ∈ stripExpected teId bodies →
        sl ∈ bodies ∨ ∃ b ∈ bodies, sl = b ++ [teId]
  | [], _, h => by simp [stripExpected] at h
  | [b], sl, h => by
    rw [stripExpected] at h
    rcases List.mem_singleton.mp h with h
    exact Or.inr ⟨b, List.mem_cons_self b [], h⟩
  | b :: b2 :: rest, sl, h => by
    rw [stripExpected] at h
    rcases List.mem_cons.mp h with h | h
    · exact Or.inl (h ▸ List.mem_cons_self b (b2 :: rest))
    · rcases mem_stripExpected teId (b2 :: rest) sl h with h | ⟨b0, hb0, hsl⟩
      · exact Or.inl (List.mem_cons_of_mem b h)
      · exact Or.inr ⟨b0, List.mem_cons_of_mem b hb0, hsl⟩

lemma dropLast_stripExpected (teId : Nat) :
    ∀ bodies : List (List Nat),
      (stripExpected teId bodies).dropLast = bodies.dropLast
  | [] => rfl
  | [_] => rfl
  | b :: b2 :: rest => by
    have ih := dropLast_stripExpected teId (b2 :: rest)
    cases rest with
    | nil =>
      rw [stripExpected, stripExpected]
      rfl
    | cons c cr =>
      rw [stripExpected] at ih
      rw [stripExpected, stripExpected, List.dropLast_cons₂, ih,
        List.dropLast_cons₂, List.dropLast_cons₂, List.dropLast_cons₂]

lemma score_count_ts (tsId teId : Nat) (hne : tsId ≠ teId) :
    ∀ bodies : List (List Nat), (∀ b ∈ bodies, tsId ∉ b) →
      (mmmScoreToTokens tsId teId bodies).count tsId = bodies.length
  | [], _ => rfl
  | b :: rest, hmem => by
    have hb : tsId ∉ b := hmem b (List.mem_cons_self b rest)
    have ih := score_count_ts tsId teId hne rest
      (fun x hx => hmem x (List.mem_cons_of_mem b hx))
    rw [score_cons, List.count_append, ih, mmmWrapTrack]
    have h1 : (tsId :: b ++ [teId]).count tsId = 1 := by
      simp [List.count_cons, List.count_append, List.count_eq_zero.mpr hb,
        hne, Ne.symm hne]
    rw [h1, List.length_cons]
    omega

lemma score_count_te (tsId teId : Nat) (hne : tsId ≠ teId) :
    ∀ bodies : List (List Nat), (∀ b ∈ bodies, teId ∉ b) →
      (mmmScoreToTokens tsId teId bodies).count teId = bodies.length
  | [], _ => rfl
  | b :: rest, hmem => by
    have hb : teId ∉ b := hmem b (List.mem_cons_self b rest)
    have ih := score_count_te tsId teId hne rest
      (fun x hx => hmem x (List.mem_cons_of_mem b hx))
    rw [score_cons, List.count_append, ih, mmmWrapTrack]
    have h1 : (tsId :: b ++ [teId]).count teId = 1 := by
      simp [List.count_cons, List.count_append, List.count_eq_zero.mpr hb,
        hne, Ne.symm hne]
    rw [h1, List.length_cons]
    omega

lemma dec_infix_of_mem {dec : Nat → List Nat} {s : List Nat}
    (l : List Nat) (h : (l.map dec).flatten = s) {k : Nat} (hk : k ∈ l) :
    (dec k).IsInfix s := by
  obtain ⟨pre, post, hl⟩ := List.append_of_mem hk
  subst hl
  refine ⟨(pre.map dec).flatten, (post.map dec).flatten, ?_⟩
  rw [← h]
  simp

/-! ## Claims C4, C5, C6 -/

lemma flatten_map_singleton : ∀ l : List Nat,
    (l.map (fun k => [k])).flatten = l
  | [] => rfl
  | a :: t => by
    rw [List.map_cons, List.flatten_cons, flatten_map_singleton t]
    rfl

/-- C4 counterexample: with encode_ids_split configured to "no"
(mmm.py lines 197-199, within the claimed lines 186-219), the whole
concatenated sequence goes to the parent encoder unsplit.  Taking a parent
encoder that merges the whole two-track stream [0, 5, 1, 0, 6, 1]
(Track_Start id 0, Track_End id 1) into the single id 99, whose lossless
expansion is the whole stream, the wrapper output is [99]: a merged id
whose expansion spans both tracks — it is not contained in either single
track slice — so merges are not always track-local and the sequence is not
split per track before encoding. -/
theorem c4_counterexample :
    mmmEncodeTokenIds "no" (fun _ => [99]) 0
      (mmmScoreToTokens 0 1 [[5], [6]]) = [99] ∧
    (([99].map (fun k : Nat => if k = 99 then [0, 5, 1, 0, 6, 1] else [k]))).flatten
      = mmmScoreToTokens 0 1 [[5], [6]] ∧
    ¬ List.IsInfix ([0, 5, 1, 0, 6, 1] : List Nat) (mmmWrapTrack 0 1 [5]) ∧
    ¬ List.IsInfix ([0, 5, 1, 0, 6, 1] : List Nat) (mmmWrapTrack 0 1 [6]) := by
  refine ⟨rfl, rfl, ?_, ?_⟩
  · intro h
    have hlen := h.length_le
    simp [mmmWrapTrack] at hlen
  · intro h
    have hlen := h.length_le
    simp [mmmWrapTrack] at hlen

/-- C4 (amended): when an id split mode is configured
(encode_ids_split different from "no"), MMM.encode_token_ids splits the
concatenated sequence per track before encoding, concatenates the
compressed id runs of the tracks back in order, and every merged id of a
track slice expands (through the compression-model expansion dec, which is
lossless per slice) to a contiguous part of that single track slice — no
merged id contains base ids originating from two different tracks; with
encode_ids_split = "no" the whole concatenated sequence is handed to the
parent encoder unsplit and the wrapper enforces no track locality. -/
theorem c4_track_local_merges (sp : String) (enc : List Nat → List Nat)
    (dec : Nat → List Nat) (tsId teId : Nat) (bodies : List (List Nat))
    (hsp : sp ≠ "no") (hne : tsId ≠ teId) (hbodies : bodies ≠ [])
    (hnotin : ∀ b ∈ bodies, tsId ∉ b)
    (hlossless : ∀ s ∈ bodies.map (mmmWrapTrack tsId teId),
      ((enc s).map dec).flatten = s) :
    mmmEncodeTokenIds sp enc tsId (mmmScoreToTokens tsId teId bodies) =
      ((bodies.map (mmmWrapTrack tsId teId)).map enc).flatten ∧
    (∀ s ∈ bodies.map (mmmWrapTrack tsId teId), ∀ k ∈ enc s,
      (dec k).IsInfix s) ∧
    (∀ ids : List Nat, mmmEncodeTokenIds "no" enc tsId ids = enc ids) := by
  refine ⟨?_, ?_, ?_⟩
  · rw [mmmEncodeTokenIds, if_neg hsp,
      split_keep_score tsId teId hne bodies hbodies hnotin]
  · intro s hs k hk
    exact dec_infix_of_mem (enc s) (hlossless s hs) hk
  · intro ids
    rw [mmmEncodeTokenIds, if_pos rfl]

/-- C4 witness: the identity encoder with singleton expansion on a concrete
two-track sequence. -/
theorem c4_track_local_merges_witness :
    ("bar" : String) ≠ "no" ∧ (0 : Nat) ≠ 1 ∧
    mmmEncodeTokenIds "bar" (fun l => l) 0 (mmmScoreToTokens 0 1 [[5], [6]]) =
      (([[5], [6]].map (mmmWrapTrack 0 1)).map (fun l => l)).flatten := by
  refine ⟨by decide, by decide, ?_⟩
  exact (c4_track_local_merges "bar" (fun l => l) (fun k => [k]) 0 1
    [[5], [6]] (by decide) (by decide) (by decide) (by decide)
    (by
      intro s _
      exact flatten_map_singleton s)).1

/-- C5: a two-track score through the MMM wrapper yields one stream with
exactly two Track_Start ids and two Track_End ids (one pair per track, in
order), and splitting it per track with the delimiters kept then
concatenating the slices in order reproduces the stream exactly. -/
theorem c5_two_track_roundtrip (tsId teId : Nat) (b1 b2 : List Nat)
    (hne : tsId ≠ teId) (h1s : tsId ∉ b1) (h2s : tsId ∉ b2)
    (h1e : teId ∉ b1) (h2e : teId ∉ b2) :
    (mmmScoreToTokens tsId teId [b1, b2]).count tsId = 2 ∧
    (mmmScoreToTokens tsId teId [b1, b2]).count teId = 2 ∧
    splitTokseqPerTrack tsId true (mmmScoreToTokens tsId teId [b1, b2]) =
      [mmmWrapTrack tsId teId b1, mmmWrapTrack tsId teId b2] ∧
    (splitTokseqPerTrack tsId true
        (mmmScoreToTokens tsId teId [b1, b2])).flatten =
      mmmScoreToTokens tsId teId [b1, b2] := by
  have hmem : ∀ b ∈ [b1, b2], tsId ∉ b := by
    intro b hb
    rcases List.mem_cons.mp hb with rfl | hb
    · exact h1s
    · rcases List.mem_singleton.mp hb with rfl
      exact h2s
  have hmeme : ∀ b ∈ [b1, b2], teId ∉ b := by
    intro b hb
    rcases List.mem_cons.mp hb with rfl | hb
    · exact h1e
    · rcases List.mem_singleton.mp hb with rfl
      exact h2e
  have hsplit := split_keep_score tsId teId hne [b1, b2] (by simp) hmem
  refine ⟨?_, ?_, ?_, ?_⟩
  · rw [score_count_ts tsId teId hne [b1, b2] hmem]
    rfl
  · rw [score_count_te tsId teId hne [b1, b2] hmeme]
    rfl
  · rw [hsplit]
    rfl
  · rw [hsplit]
    rfl

/-- C5 witness at a concrete two-track stream. -/
theorem c5_two_track_roundtrip_witness :
    (0 : Nat) ≠ 1 ∧
    (mmmScoreToTokens 0 1 [[5, 6], [7]]).count 0 = 2 ∧
    (mmmScoreToTokens 0 1 [[5, 6], [7]]).count 1 = 2 ∧
    splitTokseqPerTrack 0 true (mmmScoreToTokens 0 1 [[5, 6], [7]]) =
      [mmmWrapTrack 0 1 [5, 6], mmmWrapTrack 0 1 [7]] := by
  have h := c5_two_track_roundtrip 0 1 [5, 6] [7] (by decide) (by decide)
    (by decide) (by decide) (by decide)
  exact ⟨by decide, h.1, h.2.1, h.2.2.1⟩

/-- C6 counterexample: with Track_Start id 0 and Track_End id 1, the
two-track stream [0, 5, 1, 0, 6, 1] splits with keep_track_tokens = False
into [[5], [6, 1]]: the last returned slice retains the trailing Track_End
id, so the claim that no returned slice contains a Track_Start or Track_End
token is false. -/
theorem c6_counterexample :
    splitTokseqPerTrack 0 false (mmmScoreToTokens 0 1 [[5], [6]]) =
      [[5], [6, 1]] ∧
    ¬ (∀ sl ∈ splitTokseqPerTrack 0 false (mmmScoreToTokens 0 1 [[5], [6]]),
        (0 : Nat) ∉ sl ∧ (1 : Nat) ∉ sl) := by decide

/-- C6 (amended): split_tokseq_per_track returns one sub-sequence per
Track_Start occurrence, slicing between consecutive Track_Start positions
with the last slice running to the end; with keep_track_tokens = False the
leading Track_Start of every slice is stripped and so is the Track_End
preceding each next Track_Start, but the last slice keeps its trailing
Track_End: no returned slice contains Track_Start, and every slice except
the last contains no Track_End. -/
theorem c6_split_strip_amended (tsId teId : Nat) (bodies : List (List Nat))
    (hne : tsId ≠ teId) (hbodies : bodies ≠ [])
    (hts : ∀ b ∈ bodies, tsId ∉ b) (hte : ∀ b ∈ bodies, teId ∉ b) :
    splitTokseqPerTrack tsId false (mmmScoreToTokens tsId teId bodies) =
      stripExpected teId bodies ∧
    (splitTokseqPerTrack tsId false
        (mmmScoreToTokens tsId teId bodies)).length =
      (mmmScoreToTokens tsId teId bodies).count tsId ∧
    (∀ sl ∈ splitTokseqPerTrack tsId false (mmmScoreToTokens tsId teId bodies),
      tsId ∉ sl) ∧
    (∀ sl ∈ (splitTokseqPerTrack tsId false
        (mmmScoreToTokens tsId teId bodies)).dropLast, teId ∉ sl) := by
  have hchar := split_false_score tsId teId hne bodies hbodies hts
  refine ⟨hchar, ?_, ?_, ?_⟩
  · rw [hchar, stripExpected_length, score_count_ts tsId teId hne bodies hts]
  · intro sl hsl
    rw [hchar] at hsl
    rcases mem_stripExpected teId bodies sl hsl with h | ⟨b0, hb0, rfl⟩
    · exact hts sl h
    · intro hmem
      rcases List.mem_append.mp hmem with h | h
      · exact hts b0 hb0 h
      · exact hne (List.mem_singleton.mp h)
  · intro sl hsl
    rw [hchar, dropLast_stripExpected] at hsl
    exact hte sl (List.dropLast_subset bodies hsl)

/-- C6 witness for the amended statement. -/
theorem c6_split_strip_amended_witness :
    (0 : Nat) ≠ 1 ∧
    splitTokseqPerTrack 0 false (mmmScoreToTokens 0 1 [[5], [6]]) =
      stripExpected 1 [[5], [6]] := by
  refine ⟨by decide, ?_⟩
  exact (c6_split_strip_amended 0 1 [[5], [6]] (by decide) (by decide)
    (by decide) (by decide)).1

/-! ## Association-list lemmas and the flush characterization -/

lemma lookupA_setA_self {α β : Type} [DecidableEq α] :
    ∀ (l : List (α × β)) (k : α) (v : β), lookupA (setA l k v) k = some v := by
  intro l k v
  induction l with
  | nil => simp [setA, lookupA]
  | cons e rest ih =>
    rw [setA]
    by_cases hk : e.1 = k
    · rw [if_pos hk, lookupA, if_pos rfl]
    · rw [if_neg hk, lookupA, if_neg hk, ih]

lemma lookupA_setA_ne {α β : Type} [DecidableEq α] :
    ∀ (l : List (α × β)) (k k2 : α) (v : β), k ≠ k2 →
      lookupA (setA l k v) k2 = lookupA l k2 := by
  intro l k k2 v hne
  induction l with
  | nil => simp [setA, lookupA, hne]
  | cons e rest ih =>
    rw [setA]
    by_cases hk : e.1 = k
    · rw [if_pos hk, lookupA, lookupA]
      have hek2 : ¬ e.1 = k2 := by rw [hk]; exact hne
      rw [if_neg hne, if_neg hek2]
    · rw [if_neg hk, lookupA, lookupA]
      by_cases hk2 : e.1 = k2
      · rw [if_pos hk2, if_pos hk2]
      · rw [if_neg hk2, if_neg hk2, ih]

lemma lookupA_append_ne {α β : Type} [DecidableEq α] :
    ∀ (l : List (α × β)) (k k2 : α) (v : β), k ≠ k2 →
      lookupA (l ++ [(k, v)]) k2 = lookupA l k2 := by
  intro l k k2 v hne
  induction l with
  | nil => simp [lookupA, hne]
  | cons e rest ih =>
    rw [List.cons_append, lookupA, lookupA]
    by_cases hk2 : e.1 = k2
    · rw [if_pos hk2, if_pos hk2]
    · rw [if_neg hk2, if_neg hk2, ih]

lemma lookupA_append_self {α β : Type} [DecidableEq α] :
    ∀ (l : List (α × β)) (k : α) (v : β), lookupA l k = none →
      lookupA (l ++ [(k, v)]) k = some v := by
  intro l k v h
  induction l with
  | nil => simp [lookupA]
  | cons e rest ih =>
    rw [lookupA] at h
    rw [List.cons_append, lookupA]
    by_cases he : e.1 = k
    · rw [if_pos he] at h
      cases h
    · rw [if_neg he] at h
      rw [if_neg he]
      exact ih h

lemma checkInst_self (tr : List (Int × MTrack)) (g : Int) :
    ∃ t, lookupA (checkInst tr g) g = some t ∧ t.notes = notesAtT tr g := by
  rw [checkInst, notesAtT]
  cases htr : lookupA tr g with
  | some t => exact ⟨t, by simp [htr], by simp⟩
  | none =>
    exact ⟨newTrack g,
      by simp [htr, lookupA_append_self tr g (newTrack g) htr],
      by simp [newTrack]⟩

lemma lookupA_checkInst_ne (tr : List (Int × MTrack)) (g g2 : Int)
    (hne : g ≠ g2) :
    lookupA (checkInst tr g) g2 = lookupA tr g2 := by
  rw [checkInst]
  cases htr : lookupA tr g with
  | some t => simp [htr]
  | none => simp [htr, lookupA_append_ne tr g g2 (newTrack g) hne]

lemma notesAtT_flushOne_self (tr : List (Int × MTrack)) (g : Int) (n : MNote) :
    notesAtT (flushOne tr g n) g = notesAtT tr g ++ [n] := by
  obtain ⟨t, hlk, hnotes⟩ := checkInst_self tr g
  rw [flushOne, appendNoteT]
  simp only [hlk]
  rw [notesAtT, lookupA_setA_self, hnotes]

lemma notesAtT_flushOne_ne (tr : List (Int × MTrack)) (g g2 : Int)
    (n : MNote) (hne : g ≠ g2) :
    notesAtT (flushOne tr g n) g2 = notesAtT tr g2 := by
  obtain ⟨t, hlk, _⟩ := checkInst_self tr g
  rw [flushOne, appendNoteT]
  simp only [hlk]
  rw [notesAtT, notesAtT, lookupA_setA_ne _ _ _ _ hne,
    lookupA_checkInst_ne tr g g2 hne]

lemma flushQueue_cons (m : Nat) (p : Int) (ov : Int × Int)
    (q : List (Int × Int)) :
    flushQueue m p (ov :: q) =
      { start := ov.1, duration := (m : Int), pitch := p,
        velocity := ov.2 } :: flushQueue m p q := rfl

lemma flushTrack_cons (pq : Int × List (Int × Int))
    (pd : List (Int × List (Int × Int))) (m : Nat) :
    flushTrack (pq :: pd) m = flushQueue m pq.1 pq.2 ++ flushTrack pd m := by
  rw [flushTrack, flushTrack, List.map_cons, List.flatten_cons]

lemma flushTrack_duration (m : Nat) :
    ∀ pd : List (Int × List (Int × Int)), ∀ n ∈ flushTrack pd m,
      n.duration = (m : Int) := by
  intro pd n hn
  rw [flushTrack] at hn
  obtain ⟨l, hl, hnl⟩ := List.mem_flatten.mp hn
  obtain ⟨pq, _, rfl⟩ := List.mem_map.mp hl
  obtain ⟨ov, _, rfl⟩ := List.mem_map.mp hnl
  rfl

lemma notesAtT_qfold (m : Nat) (g0 p : Int) :
    ∀ (q : List (Int × Int)) (tr : List (Int × MTrack)) (g : Int),
      notesAtT (q.foldl (fun tr2 ov =>
          flushOne tr2 g0 ⟨ov.1, (m : Int), p, ov.2⟩) tr) g =
        notesAtT tr g ++ (if g = g0 then flushQueue m p q else []) := by
  intro q
  induction q with
  | nil =>
    intro tr g
    by_cases hg : g = g0 <;> simp [hg, flushQueue]
  | cons ov q ih =>
    intro tr g
    rw [List.foldl_cons, ih]
    by_cases hg : g = g0
    · subst hg
      rw [if_pos rfl, if_pos rfl, notesAtT_flushOne_self, flushQueue_cons,
        List.append_assoc]
      rfl
    · rw [if_neg hg, if_neg hg,
        notesAtT_flushOne_ne tr g0 g _ (fun h => hg h.symm)]

lemma notesAtT_pdfold (m : Nat) (g0 : Int) :
    ∀ (pd : List (Int × List (Int × Int))) (tr : List (Int × MTrack))
      (g : Int),
      notesAtT (pd.foldl (fun tr1 pq => pq.2.foldl (fun tr2 ov =>
          flushOne tr2 g0 ⟨ov.1, (m : Int), pq.1, ov.2⟩) tr1) tr) g =
        notesAtT tr g ++ (if g = g0 then flushTrack pd m else []) := by
  intro pd
  induction pd with
  | nil =>
    intro tr g
    by_cases hg : g = g0 <;> simp [hg, flushTrack]
  | cons pq pd ih =>
    intro tr g
    rw [List.foldl_cons, ih, notesAtT_qfold m g0 pq.1 pq.2 tr g]
    by_cases hg : g = g0
    · rw [if_pos hg, if_pos hg, if_pos hg, flushTrack_cons,
        List.append_assoc]
    · rw [if_neg hg, if_neg hg, if_neg hg, List.append_nil]

lemma notesAtT_flushAllNotes (m : Nat) :
    ∀ (an : ANotes) (tr : List (Int × MTrack)) (g : Int),
      notesAtT (flushAllNotes m an tr) g =
        notesAtT tr g ++
          ((an.filter (fun e => decide (e.1 = g))).map
            (fun e => flushTrack e.2 m)).flatten := by
  intro an
  induction an with
  | nil => intro tr g; simp [flushAllNotes]
  | cons gpd an ih =>
    intro tr g
    simp only [flushAllNotes, List.foldl_cons]
    simp only [flushAllNotes] at ih
    rw [ih, notesAtT_pdfold m gpd.1 gpd.2 tr g, List.filter_cons]
    by_cases hg : gpd.1 = g
    · rw [if_pos hg.symm, if_pos (decide_eq_true hg), List.map_cons,
        List.flatten_cons, List.append_assoc]
    · rw [if_neg (fun h => hg h.symm),
        if_neg (fun h => hg (of_decide_eq_true h)), List.append_nil]

/-- C7: at the end of decoding (clear_active_notes runs at the end of the
single sequence in one-token-stream mode and at the end of each track
sequence otherwise), with a configured max duration every queued
(onset, velocity) entry of every pitch queue is flushed as a note whose
duration is exactly that max duration, into its program track (the current
instrument in multi-stream mode); with no max duration configured the state
is unchanged and the queued entries are dropped without producing notes. -/
theorem c7_flush_queued_at_end (cfg : MLConfig) (st : MLState) (m : Nat) :
    clearActiveNotes cfg none st = some st ∧
    (cfg.one_token_stream = true →
      ∃ st2, clearActiveNotes cfg (some m) st = some st2 ∧
        ∀ g, notesAtT st2.tracks g = notesAtT st.tracks g ++
          ((st.active_notes.filter (fun e => decide (e.1 = g))).map
            (fun e => flushTrack e.2 m)).flatten) ∧
    (cfg.one_token_stream = false →
      ∀ pd, lookupA st.active_notes st.cur_instr.program = some pd →
        ∃ st2, clearActiveNotes cfg (some m) st = some st2 ∧
          st2.cur_instr.notes = st.cur_instr.notes ++ flushTrack pd m) ∧
    (∀ pd, ∀ n ∈ flushTrack pd m, n.duration = (m : Int)) := by
  refine ⟨rfl, ?_, ?_, flushTrack_duration m⟩
  · intro hone
    refine ⟨{ st with tracks := flushAllNotes m st.active_notes st.tracks },
      ?_, ?_⟩
    · rw [clearActiveNotes]
      rw [hone]
      rfl
    · intro g
      exact notesAtT_flushAllNotes m st.active_notes st.tracks g
  · intro hone pd hpd
    refine ⟨{ st with cur_instr := { st.cur_instr with
        notes := st.cur_instr.notes ++ flushTrack pd m } }, ?_, rfl⟩
    rw [clearActiveNotes]
    rw [hone]
    simp only [Bool.false_eq_true, if_false, hpd]

/-! ## Step-level facts for the MIDILike decode (C1, C2) -/

lemma anUpdate_of_anGet (an : ANotes) (g p : Int)
    (f : List (Int × Int) → List (Int × Int)) (q : List (Int × Int))
    (h : anGet an g p = some q) :
    ∃ an2, anUpdate an g p f = some an2 ∧ anGet an2 g p = some (f q) := by
  rw [anGet] at h
  cases hd : lookupA an g with
  | none =>
    simp only [hd] at h
    cases h
  | some d =>
    simp only [hd] at h
    refine ⟨setA an g (setA d p (f q)), ?_, ?_⟩
    · simp only [anUpdate, hd, h]
    · rw [anGet, lookupA_setA_self]
      simp only [lookupA_setA_self]

lemma mlAddNote_active_notes (cfg : MLConfig) (st : MLState) (g : Int)
    (n : MNote) : (mlAddNote cfg st g n).active_notes = st.active_notes := by
  rw [mlAddNote]
  by_cases hc : cfg.one_token_stream = true
  · rw [if_pos hc]
  · rw [if_neg hc]

lemma mlAddNote_current_tick (cfg : MLConfig) (st : MLState) (g : Int)
    (n : MNote) : (mlAddNote cfg st g n).current_tick = st.current_tick := by
  rw [mlAddNote]
  by_cases hc : cfg.one_token_stream = true
  · rw [if_pos hc]
  · rw [if_neg hc]

lemma mlNotesDest_mlAddNote (cfg : MLConfig) (st : MLState) (g : Int)
    (n : MNote) :
    mlNotesDest cfg (mlAddNote cfg st g n) g = mlNotesDest cfg st g ++ [n] := by
  rw [mlAddNote]
  cases hc : cfg.one_token_stream
  · simp only [Bool.false_eq_true, if_false, mlNotesDest, hc]
  · simp only [if_true, mlNotesDest, hc]
    exact notesAtT_flushOne_self st.tracks g n

/-- C1 (amended): in the FIFO decode a NoteOff token for pitch p under the
current program pops the oldest queued (onset, velocity) entry and appends a
note starting at that onset whose duration is the distance to the current
tick cursor, clamped to the configured max duration when one is set; with an
empty queue the NoteOff is silently ignored (state unchanged, no error). -/
theorem c1_noteoff_pops_oldest_clamped (cfg : MLConfig) (maxDur : Option Nat)
    (fs : Bool) (st : MLState) (p : Int) (next? : Option Tok)
    (q : List (Int × Int))
    (hq : anGet st.active_notes st.current_program p = some q) :
    (q = [] →
      mlStep cfg maxDur fs st ⟨"NoteOff", TokVal.num p⟩ next? = some st) ∧
    ∀ onset vel qrest, q = (onset, vel) :: qrest →
      ∃ st2,
        mlStep cfg maxDur fs st ⟨"NoteOff", TokVal.num p⟩ next? = some st2 ∧
        anGet st2.active_notes st.current_program p = some qrest ∧
        mlNotesDest cfg st2 st.current_program =
          mlNotesDest cfg st st.current_program ++
            [⟨onset, clampDur maxDur (st.current_tick - onset), p, vel⟩] ∧
        st2.current_tick = st.current_tick := by
  constructor
  · intro hq0
    subst hq0
    rw [mlStep]
    simp [mlPitchOf, TokVal.intVal, hq]
  · intro onset vel qrest hqc
    subst hqc
    obtain ⟨an2, hupd, hget⟩ := anUpdate_of_anGet st.active_notes
      st.current_program p (fun q0 => q0.tail) ((onset, vel) :: qrest) hq
    refine ⟨mlAddNote cfg { st with active_notes := an2 } st.current_program
      ⟨onset, clampDur maxDur (st.current_tick - onset), p, vel⟩,
      ?_, ?_, ?_, ?_⟩
    · rw [mlStep]
      simp [mlPitchOf, TokVal.intVal, hq, hupd]
    · rw [mlAddNote_active_notes]
      exact hget
    · have h1 : mlNotesDest cfg { st with active_notes := an2 }
          st.current_program = mlNotesDest cfg st st.current_program := by
        rw [mlNotesDest, mlNotesDest]
      rw [mlNotesDest_mlAddNote, h1]
    · rw [mlAddNote_current_tick]

/-- C1 witness: an empty queue NoteOff on the fresh decode state. -/
theorem c1_noteoff_witness :
    anGet (mlInitState cfgW).active_notes
      (mlInitState cfgW).current_program 60 = some [] ∧
    mlStep cfgW none true (mlInitState cfgW) ⟨"NoteOff", TokVal.num 60⟩ none =
      some (mlInitState cfgW) := by
  refine ⟨by decide, ?_⟩
  exact (c1_noteoff_pops_oldest_clamped cfgW none true (mlInitState cfgW) 60
    none [] (by decide)).1 rfl

/-- C1 counterexample: with a configured max duration of 4 ticks, decoding
NoteOn_60, Velocity_100, an 8-tick TimeShift, NoteOff_60 leaves the tick
cursor at 8 yet emits the note with the clamped duration 4: the note spans
onset 0 to tick 4, not to the current tick cursor 8 as the claim states. -/
theorem c1_noteoff_counterexample :
    (mlDecodeSeq cfgWmax (mlMaxDurTicks cfgWmax) true (mlInitState cfgWmax)
      [⟨"NoteOn", TokVal.num 60⟩, ⟨"Velocity", TokVal.num 100⟩,
       ⟨"TimeShift", TokVal.dur 1 0 1⟩, ⟨"NoteOff", TokVal.num 60⟩]).map
      (fun st => (st.current_tick, mlNotesDest cfgWmax st 0)) =
      some (8, [⟨0, 4, 60, 100⟩]) ∧ ((0 : Int) + 4 ≠ 8) := by decide

lemma intVal_num (n : Int) : TokVal.intVal (TokVal.num n) = some n := rfl

lemma mlPitchOf_preserves (st : MLState) (tok : Tok) (pst : Int × MLState)
    (h : mlPitchOf st tok = some pst) :
    pst.2.active_notes = st.active_notes ∧
    pst.2.current_program = st.current_program ∧
    pst.2.current_tick = st.current_tick ∧
    pst.2.tracks = st.tracks ∧
    pst.2.cur_instr = st.cur_instr := by
  rw [mlPitchOf] at h
  by_cases h1 : tok.ttype = "PitchIntervalTime"
  · rw [if_pos h1] at h
    cases hv : TokVal.intVal tok.tval with
    | none => simp only [hv] at h; cases h
    | some dv =>
      cases hp : lookupA st.ppo st.current_program with
      | none => simp only [hv, hp] at h; cases h
      | some prev =>
        simp only [hv, hp] at h
        cases h
        exact ⟨rfl, rfl, rfl, rfl, rfl⟩
  · rw [if_neg h1] at h
    by_cases h2 : tok.ttype = "PitchIntervalChord"
    · rw [if_pos h2] at h
      cases hv : TokVal.intVal tok.tval with
      | none => simp only [hv] at h; cases h
      | some dv =>
        cases hp : lookupA st.ppc st.current_program with
        | none => simp only [hv, hp] at h; cases h
        | some prev =>
          simp only [hv, hp] at h
          cases h
          exact ⟨rfl, rfl, rfl, rfl, rfl⟩
    · rw [if_neg h2] at h
      cases hv : TokVal.intVal tok.tval with
      | none => simp only [hv] at h; cases h
      | some p0 =>
        simp only [hv] at h
        by_cases h3 : tok.ttype = "NoteOn"
        · rw [if_pos h3] at h
          cases h
          exact ⟨rfl, rfl, rfl, rfl, rfl⟩
        · rw [if_neg h3] at h
          cases h
          exact ⟨rfl, rfl, rfl, rfl, rfl⟩

lemma mlStep_noteon_eq (cfg : MLConfig) (maxDur : Option Nat) (fs : Bool)
    (st : MLState) (tok : Tok) (next? : Option Tok)
    (hclass : tok.ttype = "NoteOn" ∨ tok.ttype = "PitchIntervalTime" ∨
      tok.ttype = "PitchIntervalChord") :
    mlStep cfg maxDur fs st tok next? =
      match mlPitchOf st tok with
      | none => none
      | some (pitch, st1) =>
        match next? with
        | none => some st1
        | some nt =>
          match TokVal.intVal nt.tval with
          | none => none
          | some vel =>
            match anUpdate st1.active_notes st1.current_program pitch
                (fun q => q ++ [(st1.current_tick, vel)]) with
            | none => none
            | some an => some { st1 with active_notes := an } := by
  rcases hclass with hcase | hcase | hcase <;>
    (rw [mlStep]; simp [hcase])

/-- C2 (amended): a note-on-class token (NoteOn, PitchIntervalTime or
PitchIntervalChord) pushes (current tick, velocity) onto the computed pitch
queue of the current program with the velocity read as the integer value of
the immediately following token whatever its type (no check that it is a
Velocity token); the event is dropped only when the note-on is the last
token of the sequence, and a following token whose value is not an integer
makes decoding raise instead of dropping the event. -/
theorem c2_noteon_velocity_from_next (cfg : MLConfig) (maxDur : Option Nat)
    (fs : Bool) (st : MLState) (tok : Tok) (pitch : Int)
    (q : List (Int × Int))
    (hclass : tok.ttype = "NoteOn" ∨ tok.ttype = "PitchIntervalTime" ∨
      tok.ttype = "PitchIntervalChord")
    (hpv : (mlPitchOf st tok).map Prod.fst = some pitch)
    (hq : anGet st.active_notes st.current_program pitch = some q) :
    (∃ st1, mlStep cfg maxDur fs st tok none = some st1 ∧
      st1.active_notes = st.active_notes ∧ st1.tracks = st.tracks ∧
      st1.cur_instr = st.cur_instr) ∧
    (∀ nt v, TokVal.intVal nt.tval = some v →
      ∃ st2, mlStep cfg maxDur fs st tok (some nt) = some st2 ∧
        anGet st2.active_notes st.current_program pitch =
          some (q ++ [(st.current_tick, v)])) ∧
    (∀ nt, TokVal.intVal nt.tval = none →
      mlStep cfg maxDur fs st tok (some nt) = none) := by
  cases hp : mlPitchOf st tok with
  | none =>
    rw [hp] at hpv
    cases hpv
  | some pst =>
    obtain ⟨pv, st1⟩ := pst
    rw [hp, Option.map_some'] at hpv
    injection hpv with hfst
    subst hfst
    have hpres := mlPitchOf_preserves st tok (pv, st1) hp
    have hAN : st1.active_notes = st.active_notes := hpres.1
    have hCP : st1.current_program = st.current_program := hpres.2.1
    have hCT : st1.current_tick = st.current_tick := hpres.2.2.1
    have hTR : st1.tracks = st.tracks := hpres.2.2.2.1
    have hCI : st1.cur_instr = st.cur_instr := hpres.2.2.2.2
    refine ⟨?_, ?_, ?_⟩
    · refine ⟨st1, ?_, hAN, hTR, hCI⟩
      rw [mlStep_noteon_eq cfg maxDur fs st tok none hclass]
      simp only [hp]
    · intro nt v hv
      have hq1 : anGet st1.active_notes st1.current_program pv = some q := by
        rw [hAN, hCP]
        exact hq
      obtain ⟨an2, hupd, hget⟩ := anUpdate_of_anGet st1.active_notes
        st1.current_program pv (fun q0 => q0 ++ [(st1.current_tick, v)]) q hq1
      refine ⟨{ st1 with active_notes := an2 }, ?_, ?_⟩
      · rw [mlStep_noteon_eq cfg maxDur fs st tok (some nt) hclass]
        simp only [hp, hv, hupd]
      · rw [hCP, hCT] at hget
        exact hget
    · intro nt hv
      rw [mlStep_noteon_eq cfg maxDur fs st tok (some nt) hclass]
      simp only [hp, hv]

/-- C2 witness: a NoteOn whose following token is a NoteOff token (the queue
entry is still pushed, with the NoteOff value as velocity), and a
PitchIntervalTime (the same push happens at the interval-computed pitch). -/
theorem c2_noteon_witness :
    anGet (mlInitState cfgW).active_notes
      (mlInitState cfgW).current_program 60 = some [] ∧
    (∃ st2, mlStep cfgW none true (mlInitState cfgW) ⟨"NoteOn", TokVal.num 60⟩
        (some ⟨"NoteOff", TokVal.num 60⟩) = some st2 ∧
      anGet st2.active_notes (mlInitState cfgW).current_program 60 =
        some ([] ++ [((mlInitState cfgW).current_tick, 60)])) ∧
    (∃ st2, mlStep cfgW none true
        { mlInitState cfgW with ppo := setA (mlInitState cfgW).ppo 0 60 }
        ⟨"PitchIntervalTime", TokVal.num 2⟩
        (some ⟨"Velocity", TokVal.num 80⟩) = some st2 ∧
      anGet st2.active_notes (mlInitState cfgW).current_program 62 =
        some ([] ++ [((mlInitState cfgW).current_tick, 80)])) := by
  refine ⟨by decide, ?_, ?_⟩
  · exact (c2_noteon_velocity_from_next cfgW none true (mlInitState cfgW)
      ⟨"NoteOn", TokVal.num 60⟩ 60 [] (Or.inl rfl) (by decide)
      (by decide)).2.1 ⟨"NoteOff", TokVal.num 60⟩ 60 rfl
  · exact (c2_noteon_velocity_from_next cfgW none true
      { mlInitState cfgW with ppo := setA (mlInitState cfgW).ppo 0 60 }
      ⟨"PitchIntervalTime", TokVal.num 2⟩ 62 [] (Or.inr (Or.inl rfl))
      (by decide) (by decide)).2.1 ⟨"Velocity", TokVal.num 80⟩ 80 rfl

/-- C2 counterexample: decoding NoteOn_60 immediately followed by NoteOff_60
(not a Velocity token) does not drop the note-on event: the queue entry is
pushed with velocity 60 read from the NoteOff value, and the NoteOff then
closes it, so the decoded track holds one note instead of none. -/
theorem c2_noteon_counterexample :
    (mlTokensToMidi cfgW
      [[⟨"NoteOn", TokVal.num 60⟩, ⟨"NoteOff", TokVal.num 60⟩]] none).map
      (fun out => out.tracks.map (fun t => t.notes)) =
      some [[⟨0, 0, 60, 60⟩]] := by decide

/-! ## Structured decode and encode claims (C8, C9) -/

lemma sdAddNote_current_tick (os : Bool) (st : SDState) (g : Int)
    (n : MNote) : (sdAddNote os st g n).current_tick = st.current_tick := by
  rw [sdAddNote]
  by_cases hc : os = true
  · rw [if_pos hc]
  · rw [if_neg hc]

lemma sdNotesDest_sdAddNote (os : Bool) (st : SDState) (g : Int) (n : MNote) :
    sdNotesDest os (sdAddNote os st g n) g = sdNotesDest os st g ++ [n] := by
  rw [sdAddNote]
  cases hc : os
  · simp only [Bool.false_eq_true, if_false, sdNotesDest]
  · simp only [if_true, sdNotesDest, hc]
    exact notesAtT_flushOne_self st.instruments g n

/-- C8: in the Structured decode a Pitch token yields a note (at the current
tick, with the following velocity and the following duration) only when it
is immediately followed by a Velocity token and then a Duration token; when
the lookahead runs off the end of the sequence the note is silently skipped
with no exception, and a non-matching pair of following tokens also
produces no note. -/
theorem c8_pitch_triplet_lookahead (os : Bool) (tbl : List (Nat × Nat × Nat))
    (tpb : Nat) (st : SDState) (p : Int) (rest : List Tok) :
    (rest.length < 2 →
      stStep os tbl tpb st ⟨"Pitch", TokVal.num p⟩ rest = some st) ∧
    (∀ t1 t2 r2, rest = t1 :: t2 :: r2 →
      ¬ (t1.ttype = "Velocity" ∧ t2.ttype = "Duration") →
      stStep os tbl tpb st ⟨"Pitch", TokVal.num p⟩ rest = some st) ∧
    (∀ v dv r2 d, rest = ⟨"Velocity", TokVal.num v⟩ :: ⟨"Duration", dv⟩ :: r2 →
      durTokenToTicks tbl tpb dv = some d →
      ∃ st2, stStep os tbl tpb st ⟨"Pitch", TokVal.num p⟩ rest = some st2 ∧
        sdNotesDest os st2 st.current_program =
          sdNotesDest os st st.current_program ++
            [⟨st.current_tick, (d : Int), p, v⟩] ∧
        st2.current_tick = st.current_tick) := by
  refine ⟨?_, ?_, ?_⟩
  · intro hlen
    cases rest with
    | nil => simp [stStep]
    | cons t1 r1 =>
      cases r1 with
      | nil => simp [stStep]
      | cons t2 r2 =>
        exact absurd hlen (by simp only [List.length_cons]; omega)
  · intro t1 t2 r2 hrest hmis
    subst hrest
    simp [stStep, hmis]
  · intro v dv r2 d hrest hd
    subst hrest
    refine ⟨sdAddNote os st st.current_program
      ⟨st.current_tick, (d : Int), p, v⟩, ?_, ?_, ?_⟩
    · simp [stStep, intVal_num, hd]
    · rw [sdNotesDest_sdAddNote]
    · rw [sdAddNote_current_tick]

/-- C8 witness: a complete triplet emits the note, a truncated one is
skipped silently. -/
theorem c8_pitch_triplet_witness :
    (∃ st2, stStep true tblW 8
        { instruments := [], current_tick := 0, current_program := 0,
          cur_instr := newTrack 0 }
        ⟨"Pitch", TokVal.num 60⟩
        [⟨"Velocity", TokVal.num 100⟩, ⟨"Duration", TokVal.dur 0 2 4⟩] =
        some st2 ∧
      sdNotesDest true st2 0 = [] ++ [⟨0, 4, 60, 100⟩] ∧
      st2.current_tick = 0) ∧
    stStep true tblW 8
      { instruments := [], current_tick := 0, current_program := 0,
        cur_instr := newTrack 0 }
      ⟨"Pitch", TokVal.num 60⟩ [⟨"Velocity", TokVal.num 100⟩] =
      some { instruments := [], current_tick := 0, current_program := 0,
             cur_instr := newTrack 0 } := by
  constructor
  · exact (c8_pitch_triplet_lookahead true tblW 8
      { instruments := [], current_tick := 0, current_program := 0,
        cur_instr := newTrack 0 } 60
      [⟨"Velocity", TokVal.num 100⟩, ⟨"Duration", TokVal.dur 0 2 4⟩]).2.2
      100 (TokVal.dur 0 2 4) [] 4 rfl (by decide)
  · exact (c8_pitch_triplet_lookahead true tblW 8
      { instruments := [], current_tick := 0, current_program := 0,
        cur_instr := newTrack 0 } 60
      [⟨"Velocity", TokVal.num 100⟩]).1 (by decide)

lemma structuredShiftVal_spec (tbl : List (Nat × Nat × Nat)) (tpb : Nat)
    (gap : Int) (v : TokVal) (h : structuredShiftVal tbl tpb gap = some v) :
    (gap = 0 ∧ v = TokVal.dur 0 0 1) ∨
    (gap ≠ 0 ∧ 0 ≤ gap ∧ ticksToDurToken tbl tpb gap.toNat = some v) := by
  rw [structuredShiftVal] at h
  by_cases h0 : gap = 0
  · rw [if_pos h0] at h
    exact Or.inl ⟨h0, (Option.some_inj.mp h).symm⟩
  · rw [if_neg h0] at h
    by_cases hneg : gap < 0
    · rw [if_pos hneg] at h
      cases h
    · rw [if_neg hneg] at h
      exact Or.inr ⟨h0, by omega, h⟩

lemma addTimeEvents_timed (check : String) (tbl : List (Nat × Nat × Nat))
    (tpb : Nat) :
    ∀ (evs : List SEv) (prev : Int) (out : List SEv),
      (∀ e ∈ evs, e.type_ ≠ "Rest" ∧ e.type_ ≠ "TimeShift") →
      structuredAddTimeEvents check tbl tpb prev evs = some out →
      SingleTimeShiftTimed check tbl tpb prev out
  | [], prev, out, _, h => by
    simp only [structuredAddTimeEvents] at h
    injection h with h2
    subst h2
    exact .nil prev
  | e :: rest, prev, out, hclean, h => by
    have hce := hclean e (List.mem_cons_self e rest)
    have hcr : ∀ x ∈ rest, x.type_ ≠ "Rest" ∧ x.type_ ≠ "TimeShift" :=
      fun x hx => hclean x (List.mem_cons_of_mem e hx)
    simp only [structuredAddTimeEvents] at h
    by_cases hchk : e.type_ = check
    · rw [if_pos hchk] at h
      cases hsv : structuredShiftVal tbl tpb (e.time - prev) with
      | none => simp only [hsv] at h; cases h
      | some v =>
        simp only [hsv] at h
        cases hrec : structuredAddTimeEvents check tbl tpb e.time rest with
        | none => simp only [hrec] at h; cases h
        | some out2 =>
          simp only [hrec] at h
          injection h with h2
          subst h2
          exact .group prev e v out2 hchk
            (structuredShiftVal_spec tbl tpb (e.time - prev) v hsv)
            (addTimeEvents_timed check tbl tpb rest e.time out2 hcr hrec)
    · rw [if_neg hchk] at h
      cases hrec : structuredAddTimeEvents check tbl tpb prev rest with
      | none => simp only [hrec] at h; cases h
      | some out2 =>
        simp only [hrec] at h
        injection h with h2
        subst h2
        exact .skip prev e out2 hchk hce.1 hce.2
          (addTimeEvents_timed check tbl tpb rest prev out2 hcr hrec)

lemma createTrackEvents_timed (tbl : List (Nat × Nat × Nat)) (tpb : Nat)
    (prog : Int) :
    ∀ (notes : List MNote) (prev : Int) (out : List SEv),
      structuredCreateTrackEvents false false tbl tpb prog prev notes =
        some out →
      SingleTimeShiftTimed "Pitch" tbl tpb prev out
  | [], prev, out, h => by
    simp only [structuredCreateTrackEvents] at h
    injection h with h2
    subst h2
    exact .nil prev
  | n :: rest, prev, out, h => by
    simp only [structuredCreateTrackEvents, Bool.false_eq_true, if_false] at h
    cases hsv : structuredShiftVal tbl tpb (n.start - prev) with
    | none => simp only [hsv] at h; cases h
    | some v =>
      simp only [hsv] at h
      cases hdur : (if n.duration < 0 then none
          else ticksToDurToken tbl tpb n.duration.toNat) with
      | none => simp only [hdur] at h; cases h
      | some dv =>
        simp only [hdur] at h
        cases hrec : structuredCreateTrackEvents false false tbl tpb prog
            n.start rest with
        | none => simp only [hrec] at h; cases h
        | some evrest =>
          simp only [hrec] at h
          injection h with h2
          subst h2
          simp only [List.singleton_append, List.nil_append, List.cons_append]
          exact .group prev ⟨"Pitch", TokVal.num n.pitch, n.start⟩ v _ rfl
            (structuredShiftVal_spec tbl tpb (n.start - prev) v hsv)
            (.skip n.start ⟨"Velocity", TokVal.num n.velocity, n.start⟩ _
              (by simp) (by simp) (by simp)
              (.skip n.start ⟨"Duration", dv, n.start⟩ _
                (by simp) (by simp) (by simp)
                (createTrackEvents_timed tbl tpb prog rest n.start evrest
                  hrec)))

lemma ticksToDurToken_clamp (tbl : List (Nat × Nat × Nat)) (tpb ticks : Nat)
    (mx : Nat × Nat × Nat) (hmx : maxDurOfTable tbl tpb = some mx)
    (hgt : ticks > durTicks mx tpb) :
    ticksToDurToken tbl tpb ticks = some (TokVal.dur mx.1 mx.2.1 mx.2.2) := by
  rw [ticksToDurToken]
  simp only [hmx]
  rw [if_pos hgt]

lemma timed_no_rest (check : String) (tbl : List (Nat × Nat × Nat))
    (tpb : Nat) (hchk : check ≠ "Rest") (prev : Int) (out : List SEv)
    (h : SingleTimeShiftTimed check tbl tpb prev out) :
    ∀ e ∈ out, e.type_ ≠ "Rest" := by
  induction h with
  | nil prev0 => intro e he; simp at he
  | skip prev0 e rest hne hnr hnts hrest ih =>
    intro x hx
    rcases List.mem_cons.mp hx with rfl | hx
    · exact hnr
    · exact ih x hx
  | group prev0 e tsv rest hchk2 hts hrest ih =>
    intro x hx
    rcases List.mem_cons.mp hx with rfl | hx
    · simp
    · rcases List.mem_cons.mp hx with rfl | hx
      · rw [hchk2]; exact hchk
      · exact ih x hx

/-- C9: the time advance inserted before each group-start event (Program in
one-token-stream mode, Pitch otherwise) is always a single TimeShift token:
the zero-length sentinel 0.0.1 when the gap is exactly zero, otherwise the
table token for the gap, which clamps to the maximum representable duration
when the gap exceeds the table; no Rest event is ever emitted.  Both the
one-token-stream path (_add_time_events) and the per-track path
(_create_track_events) satisfy the property. -/
theorem c9_single_timeshift_advance (os : Bool) (tbl : List (Nat × Nat × Nat))
    (tpb : Nat) :
    (∀ (evs : List SEv) (prev : Int) (out : List SEv),
      (∀ e ∈ evs, e.type_ ≠ "Rest" ∧ e.type_ ≠ "TimeShift") →
      structuredAddTimeEvents (structuredCheckType os) tbl tpb prev evs =
        some out →
      SingleTimeShiftTimed (structuredCheckType os) tbl tpb prev out ∧
        ∀ e ∈ out, e.type_ ≠ "Rest") ∧
    (∀ (prog : Int) (notes : List MNote) (prev : Int) (out : List SEv),
      structuredCreateTrackEvents false false tbl tpb prog prev notes =
        some out →
      SingleTimeShiftTimed "Pitch" tbl tpb prev out ∧
        ∀ e ∈ out, e.type_ ≠ "Rest") ∧
    (∀ (ticks : Nat) (mx : Nat × Nat × Nat),
      maxDurOfTable tbl tpb = some mx → ticks > durTicks mx tpb →
      ticksToDurToken tbl tpb ticks =
        some (TokVal.dur mx.1 mx.2.1 mx.2.2)) := by
  have hchkne : structuredCheckType os ≠ "Rest" := by
    rw [structuredCheckType]
    cases os
    · simp
    · simp
  refine ⟨?_, ?_, ?_⟩
  · intro evs prev out hclean h
    have ht := addTimeEvents_timed (structuredCheckType os) tbl tpb evs prev
      out hclean h
    exact ⟨ht, timed_no_rest (structuredCheckType os) tbl tpb hchkne prev
      out ht⟩
  · intro prog notes prev out h
    have ht := createTrackEvents_timed tbl tpb prog notes prev out h
    exact ⟨ht, timed_no_rest "Pitch" tbl tpb (by decide) prev out ht⟩
  · intro ticks mx hmx hgt
    exact ticksToDurToken_clamp tbl tpb ticks mx hmx hgt

/-- C9 witness: a concrete one-token-stream event list, with a zero gap
before the first group and a 16-tick gap (the table maximum at 8 ticks per
beat) before the second. -/
theorem c9_single_timeshift_witness :
    structuredAddTimeEvents (structuredCheckType true) tblW 8 0
      [⟨"Program", TokVal.num 0, 0⟩, ⟨"Pitch", TokVal.num 60, 0⟩,
       ⟨"Program", TokVal.num 0, 16⟩, ⟨"Pitch", TokVal.num 62, 16⟩] =
      some [⟨"TimeShift", TokVal.dur 0 0 1, 0⟩, ⟨"Program", TokVal.num 0, 0⟩,
        ⟨"Pitch", TokVal.num 60, 0⟩, ⟨"TimeShift", TokVal.dur 2 0 1, 16⟩,
        ⟨"Program", TokVal.num 0, 16⟩, ⟨"Pitch", TokVal.num 62, 16⟩] ∧
    SingleTimeShiftTimed (structuredCheckType true) tblW 8 0
      [⟨"TimeShift", TokVal.dur 0 0 1, 0⟩, ⟨"Program", TokVal.num 0, 0⟩,
       ⟨"Pitch", TokVal.num 60, 0⟩, ⟨"TimeShift", TokVal.dur 2 0 1, 16⟩,
       ⟨"Program", TokVal.num 0, 16⟩, ⟨"Pitch", TokVal.num 62, 16⟩] := by
  refine ⟨by decide, ?_⟩
  exact ((c9_single_timeshift_advance true tblW 8).1
    [⟨"Program", TokVal.num 0, 0⟩, ⟨"Pitch", TokVal.num 60, 0⟩,
     ⟨"Program", TokVal.num 0, 16⟩, ⟨"Pitch", TokVal.num 62, 16⟩] 0 _
    (by decide) (by decide)).1

/-! ## The tokens_errors lookahead scan (C10) -/

/-- C10: the lookahead scan of MIDILike.tokens_errors computes exactly what
the program-free scan computes: it stops successfully (no error) at the
first subsequent NoteOff whose pitch value equals the onset pitch,
regardless of the tracked program state or of Program tokens seen during
the scan — the program comparison never changes the outcome.  In
particular the result is independent of the initial program tracking value,
and a scan starting at a matching NoteOff succeeds immediately. -/
theorem c10_scan_ignores_program (cfg : MLConfig) (maxDur : Nat)
    (pitch : Int) (g : Int) :
    (∀ (evs : List Tok) (cpn : ProgVal) (offset : Nat),
      scanOff cfg maxDur pitch g cpn offset evs =
        scanOffNoProg cfg maxDur pitch offset evs) ∧
    (∀ (evs : List Tok) (cpn cpn2 : ProgVal) (offset : Nat),
      scanOff cfg maxDur pitch g cpn offset evs =
        scanOff cfg maxDur pitch g cpn2 offset evs) ∧
    (∀ (rest : List Tok) (cpn : ProgVal) (offset : Nat),
      scanOff cfg maxDur pitch g cpn offset
        (⟨"NoteOff", TokVal.num pitch⟩ :: rest) = some 0) := by
  have hmain : ∀ (evs : List Tok) (cpn : ProgVal) (offset : Nat),
      scanOff cfg maxDur pitch g cpn offset evs =
        scanOffNoProg cfg maxDur pitch offset evs := by
    intro evs
    induction evs with
    | nil => intro cpn offset; rfl
    | cons e rest ih =>
      intro cpn offset
      rw [scanOff, scanOffNoProg]
      by_cases h1 : e.ttype = "NoteOff"
      · rw [if_pos h1, if_pos h1]
        cases hv : TokVal.intVal e.tval with
        | none => simp only [hv]
        | some v =>
          simp only [hv]
          by_cases h2 : v = pitch
          · rw [if_pos h2, if_pos h2]
            by_cases h3 : cfg.use_programs = true ∧ progEq cpn g = true
            · rw [if_pos h3]
            · rw [if_neg h3]
          · rw [if_neg h2, if_neg h2]
            by_cases h3 : offset > maxDur
            · rw [if_pos h3, if_pos h3]
            · rw [if_neg h3, if_neg h3, ih]
      · rw [if_neg h1, if_neg h1]
        by_cases h2 : e.ttype = "TimeShift" ∨ e.ttype = "Rest"
        · rw [if_pos h2, if_pos h2]
          cases ht : tokenDurationToTicks e.tval cfg.time_division with
          | none => simp only [ht]
          | some t =>
            simp only [ht]
            by_cases h3 : offset + t > maxDur
            · rw [if_pos h3, if_pos h3]
            · rw [if_neg h3, if_neg h3, ih]
        · rw [if_neg h2, if_neg h2]
          by_cases h4 : e.ttype = "Program"
          · rw [if_pos h4]
            by_cases h3 : offset > maxDur
            · rw [if_pos h3, if_pos h3]
            · rw [if_neg h3, if_neg h3, ih]
          · rw [if_neg h4]
            by_cases h3 : offset > maxDur
            · rw [if_pos h3, if_pos h3]
            · rw [if_neg h3, if_neg h3, ih]
  refine ⟨hmain, ?_, ?_⟩
  · intro evs cpn cpn2 offset
    rw [hmain evs cpn offset, hmain evs cpn2 offset]
  · intro rest cpn offset
    rw [hmain]
    rw [scanOffNoProg]
    simp [intVal_num]

lemma scanOff_le_one (cfg : MLConfig) (maxDur : Nat) (pitch g : Int) :
    ∀ (evs : List Tok) (cpn : ProgVal) (offset : Nat) (r : Nat),
      scanOff cfg maxDur pitch g cpn offset evs = some r → r ≤ 1 := by
  intro evs
  induction evs with
  | nil =>
    intro cpn offset r h
    rw [scanOff] at h
    injection h with h2
    omega
  | cons e rest ih =>
    intro cpn offset r h
    rw [scanOff] at h
    by_cases h1 : e.ttype = "NoteOff"
    · rw [if_pos h1] at h
      cases hv : TokVal.intVal e.tval with
      | none => simp only [hv] at h; cases h
      | some v =>
        simp only [hv] at h
        by_cases h2 : v = pitch
        · rw [if_pos h2] at h
          by_cases h3 : cfg.use_programs = true ∧ progEq cpn g = true
          · rw [if_pos h3] at h; injection h with h2b; omega
          · rw [if_neg h3] at h; injection h with h2b; omega
        · rw [if_neg h2] at h
          by_cases h3 : offset > maxDur
          · rw [if_pos h3] at h; injection h with h2b; omega
          · rw [if_neg h3] at h; exact ih cpn offset r h
    · rw [if_neg h1] at h
      by_cases h2 : e.ttype = "TimeShift" ∨ e.ttype = "Rest"
      · rw [if_pos h2] at h
        cases ht : tokenDurationToTicks e.tval cfg.time_division with
        | none => simp only [ht] at h; cases h
        | some t =>
          simp only [ht] at h
          by_cases h3 : offset + t > maxDur
          · rw [if_pos h3] at h; injection h with h2b; omega
          · rw [if_neg h3] at h; exact ih cpn (offset + t) r h
      · rw [if_neg h2] at h
        by_cases h4 : e.ttype = "Program"
        · rw [if_pos h4] at h
          by_cases h3 : offset > maxDur
          · rw [if_pos h3] at h; injection h with h2b; omega
          · rw [if_neg h3] at h; exact ih (ProgVal.raw e.tval) offset r h
        · rw [if_neg h4] at h
          by_cases h3 : offset > maxDur
          · rw [if_pos h3] at h; injection h with h2b; omega
          · rw [if_neg h3] at h; exact ih cpn offset r h

/-! ## Error-count bound for tokens_errors (C3) -/

lemma tePitchOf_preserves (st : TEState) (e : Tok) (pst : Int × TEState)
    (h : tePitchOf st e = some pst) :
    pst.2.err = st.err := by
  rw [tePitchOf] at h
  by_cases h1 : e.ttype = "NoteOn"
  · rw [if_pos h1] at h
    cases hv : TokVal.intVal e.tval with
    | none => simp only [hv] at h; cases h
    | some v =>
      simp only [hv] at h
      cases h
      rfl
  · rw [if_neg h1] at h
    by_cases h2 : e.ttype = "PitchIntervalTime"
    · rw [if_pos h2] at h
      cases hv : TokVal.intVal e.tval with
      | none => simp only [hv] at h; cases h
      | some v =>
        cases hp : lookupA st.ppo st.current_program with
        | none => simp only [hv, hp] at h; cases h
        | some prev =>
          simp only [hv, hp] at h
          cases h
          rfl
    · rw [if_neg h2] at h
      cases hv : TokVal.intVal e.tval with
      | none => simp only [hv] at h; cases h
      | some v =>
        cases hp : lookupA st.ppc st.current_program with
        | none => simp only [hv, hp] at h; cases h
        | some prev =>
          simp only [hv, hp] at h
          cases h
          rfl

lemma teStep_err_le (cfg : MLConfig) (graph : TGraph) (maxDur : Option Nat)
    (prev? : Option String) (st : TEState) (e : Tok) (tail : List Tok)
    (st2 : TEState) (h : teStep cfg graph maxDur prev? st e tail = some st2) :
    st2.err ≤ st.err + 1 := by
  rw [teStep.eq_def] at h
  cases hbad : (match prev? with
      | none => some false
      | some pt =>
        match lookupA graph pt with
        | none => none
        | some succ => some (decide (e.ttype ∉ succ))) with
  | none => simp only [hbad] at h; cases h
  | some bad =>
    simp only [hbad] at h
    cases bad with
    | true =>
      simp only [if_true] at h
      cases h
      simp
    | false =>
      simp only [Bool.false_eq_true, if_false] at h
      by_cases h1 : e.ttype = "NoteOn" ∨ e.ttype = "PitchIntervalTime" ∨
          e.ttype = "PitchIntervalChord"
      · rw [if_pos h1] at h
        cases hpv : tePitchOf st e with
        | none => simp only [hpv] at h; cases h
        | some pst =>
          obtain ⟨pv, st1⟩ := pst
          have hpe : st1.err = st.err :=
            tePitchOf_preserves st e (pv, st1) hpv
          simp only [hpv] at h
          cases hap : apUpdate st1.active_pitches st1.current_program pv
              (fun c => c + 1) with
          | none => simp only [hap] at h; cases h
          | some ap =>
            simp only [hap] at h
            cases hcl : lookupA st1.cpt st1.current_program with
            | none => simp only [hcl] at h; cases h
            | some cl =>
              simp only [hcl] at h
              by_cases hdup : cfg.remove_duplicated_notes = true ∧ pv ∈ cl
              · rw [if_pos hdup] at h
                cases h
                simp
                omega
              · rw [if_neg hdup] at h
                cases maxDur with
                | none =>
                  cases h
                  simp
                  omega
                | some m =>
                  cases hscan : scanOff cfg m pv st1.current_program
                      (ProgVal.int st1.current_program) 0 tail with
                  | none => simp only [hscan] at h; cases h
                  | some dErr =>
                    simp only [hscan] at h
                    cases h
                    have hb := scanOff_le_one cfg m pv st1.current_program
                      tail (ProgVal.int st1.current_program) 0 dErr hscan
                    simp
                    omega
      · rw [if_neg h1] at h
        by_cases h5 : e.ttype = "NoteOff"
        · rw [if_pos h5] at h
          cases hv : TokVal.intVal e.tval with
          | none => simp only [hv] at h; cases h
          | some v =>
            simp only [hv] at h
            cases hg : apGet st.active_pitches st.current_program v with
            | none => simp only [hg] at h; cases h
            | some c =>
              simp only [hg] at h
              by_cases hc0 : c = 0
              · rw [if_pos hc0] at h
                cases h
                simp
              · rw [if_neg hc0] at h
                cases hap2 : apUpdate st.active_pitches st.current_program v
                    (fun c0 => c0 - 1) with
                | none => simp only [hap2] at h; cases h
                | some ap =>
                  simp only [hap2] at h
                  cases h
                  simp
        · rw [if_neg h5] at h
          by_cases h6 : e.ttype = "Program" ∧ tail.length ≥ 1
          · rw [if_pos h6] at h
            cases hv : TokVal.intVal e.tval with
            | none => simp only [hv] at h; cases h
            | some v =>
              simp only [hv] at h
              cases h
              simp
          · rw [if_neg h6] at h
            by_cases h7 : e.ttype = "TimeShift" ∨ e.ttype = "Rest"
            · rw [if_pos h7] at h
              cases h
              simp
            · rw [if_neg h7] at h
              cases h
              simp

lemma teLoop_err_le (cfg : MLConfig) (graph : TGraph) (maxDur : Option Nat) :
    ∀ (toks : List Tok) (prev? : Option String) (st st2 : TEState),
      teLoop cfg graph maxDur prev? st toks = some st2 →
      st2.err ≤ st.err + toks.length
  | [], _, st, st2, h => by
    rw [teLoop] at h
    injection h with h2
    subst h2
    simp
  | e :: rest, prev?, st, st2, h => by
    rw [teLoop] at h
    cases hs : teStep cfg graph maxDur prev? st e rest with
    | none => simp only [hs] at h; cases h
    | some stm =>
      simp only [hs] at h
      have h1 := teStep_err_le cfg graph maxDur prev? st e rest stm hs
      have h2 := teLoop_err_le cfg graph maxDur rest (some e.ttype) stm st2 h
      rw [List.length_cons]
      omega

lemma mlTokensErrCount_le (cfg : MLConfig) (toks : List Tok) (e : Nat)
    (h : mlTokensErrCount cfg toks = some e) : e ≤ toks.length := by
  rw [mlTokensErrCount] at h
  cases hl : teLoop cfg (mlTokensTypesGraph cfg) (mlMaxDurTicks cfg) none
      (teInit cfg) toks with
  | none => simp only [hl] at h; cases h
  | some stf =>
    simp only [hl] at h
    injection h with h2
    subst h2
    have hb := teLoop_err_le cfg (mlTokensTypesGraph cfg) (mlMaxDurTicks cfg)
      toks none (teInit cfg) stf hl
    simpa [teInit] using hb

/-- C3: tokens_errors returns the total error count divided by the token
count (the empty sequence scores 0), the error count never exceeds the
token count so the score always lies in [0, 1], and the syntactically
perfect freshly encoded sequence NoteOn_60 Velocity_100 TimeShift NoteOff_60
(the spec scenario for a single note) scores exactly 0. -/
theorem c3_score_normalized (cfg : MLConfig) (toks : List Tok) :
    (∀ q, mlTokensErrors cfg toks = some q → 0 ≤ q ∧ q ≤ 1) ∧
    (∀ e, toks ≠ [] → mlTokensErrCount cfg toks = some e →
      mlTokensErrors cfg toks = some ((e : ℚ) / (toks.length : ℚ)) ∧
      e ≤ toks.length) ∧
    mlTokensErrors cfgW
      [⟨"NoteOn", TokVal.num 60⟩, ⟨"Velocity", TokVal.num 100⟩,
       ⟨"TimeShift", TokVal.dur 1 0 1⟩, ⟨"NoteOff", TokVal.num 60⟩] =
      some 0 := by
  refine ⟨?_, ?_, ?_⟩
  case refine_3 =>
    have hc : mlTokensErrCount cfgW
        [⟨"NoteOn", TokVal.num 60⟩, ⟨"Velocity", TokVal.num 100⟩,
         ⟨"TimeShift", TokVal.dur 1 0 1⟩, ⟨"NoteOff", TokVal.num 60⟩] =
        some 0 := by decide
    rw [mlTokensErrors, if_neg (by decide), hc]
    simp
  · intro q hq
    rw [mlTokensErrors] at hq
    by_cases h0 : toks.length = 0
    · rw [if_pos h0] at hq
      injection hq with h2
      subst h2
      constructor
      · norm_num
      · norm_num
    · rw [if_neg h0] at hq
      cases hc : mlTokensErrCount cfg toks with
      | none => simp only [hc] at hq; cases hq
      | some e =>
        simp only [hc, Option.map_some] at hq
        injection hq with h2
        subst h2
        have hle := mlTokensErrCount_le cfg toks e hc
        have hpos : (0 : ℚ) < (toks.length : ℚ) := by
          have : 0 < toks.length := Nat.pos_of_ne_zero h0
          exact_mod_cast this
        constructor
        · exact div_nonneg (by positivity) (le_of_lt hpos)
        · rw [div_le_one hpos]
          exact_mod_cast hle
  · intro e hne hc
    have h0 : ¬ toks.length = 0 := by
      intro hlen
      exact hne (List.length_eq_zero.mp hlen)
    refine ⟨?_, mlTokensErrCount_le cfg toks e hc⟩
    rw [mlTokensErrors, if_neg h0, hc]
    rfl

/-- C3 witness: the perfect four-token sequence has error count 0 and its
score is 0 divided by 4. -/
theorem c3_score_normalized_witness :
    ([⟨"NoteOn", TokVal.num 60⟩, ⟨"Velocity", TokVal.num 100⟩,
      ⟨"TimeShift", TokVal.dur 1 0 1⟩, ⟨"NoteOff", TokVal.num 60⟩] :
      List Tok) ≠ [] ∧
    mlTokensErrors cfgW
      [⟨"NoteOn", TokVal.num 60⟩, ⟨"Velocity", TokVal.num 100⟩,
       ⟨"TimeShift", TokVal.dur 1 0 1⟩, ⟨"NoteOff", TokVal.num 60⟩] =
      some ((0 : ℚ) /
        (([⟨"NoteOn", TokVal.num 60⟩, ⟨"Velocity", TokVal.num 100⟩,
           ⟨"TimeShift", TokVal.dur 1 0 1⟩, ⟨"NoteOff", TokVal.num 60⟩] :
           List Tok).length : ℚ)) := by
  refine ⟨by decide, ?_⟩
  exact ((c3_score_normalized cfgW
    [⟨"NoteOn", TokVal.num 60⟩, ⟨"Velocity", TokVal.num 100⟩,
     ⟨"TimeShift", TokVal.dur 1 0 1⟩, ⟨"NoteOff", TokVal.num 60⟩]).2.1 0
    (by decide) (by decide)).1

/-- C7 witness: the one-token-stream flush on the fresh decode state. -/
theorem c7_flush_witness :
    cfgW.one_token_stream = true ∧
    (∃ st2, clearActiveNotes cfgW (some 4) (mlInitState cfgW) = some st2 ∧
      ∀ g, notesAtT st2.tracks g = notesAtT (mlInitState cfgW).tracks g ++
        (((mlInitState cfgW).active_notes.filter
            (fun e => decide (e.1 = g))).map
          (fun e => flushTrack e.2 4)).flatten) :=
  ⟨by decide,
    (c7_flush_queued_at_end cfgW (mlInitState cfgW) 4).2.1 (by decide)⟩

end MidiTok
